import Mathlib

/-! Return To The Roots: SDL video driver and territory queries.

A shallow embedding of `driver/video/SDL/src/VideoSDL.cpp` (screen creation,
the message loop, key translation, video mode listing) and of the world
queries exercised by `src/test/testWorldCreation.cpp` (distance, radius
enumeration, ownership and border classification).
-/

namespace VideoSDL

/-! ## Constants of the SDL 1.2 headers used by the driver -/

def SDL_HWSURFACE : Nat := 0x00000001
def SDL_OPENGL : Nat := 0x00000002
def SDL_RESIZABLE : Nat := 0x00000010
def SDL_DOUBLEBUF : Nat := 0x40000000
def SDL_FULLSCREEN : Nat := 0x80000000

def SDL_APPACTIVE : Nat := 0x04

def SDL_BUTTON_LEFT : Nat := 1
def SDL_BUTTON_RIGHT : Nat := 3
def SDL_BUTTON_WHEELUP : Nat := 4
def SDL_BUTTON_WHEELDOWN : Nat := 5

def SDLK_BACKSPACE : Nat := 8
def SDLK_TAB : Nat := 9
def SDLK_RETURN : Nat := 13
def SDLK_ESCAPE : Nat := 27
def SDLK_SPACE : Nat := 32
def SDLK_BACKQUOTE : Nat := 96
def SDLK_DELETE : Nat := 127
def SDLK_UP : Nat := 273
def SDLK_DOWN : Nat := 274
def SDLK_RIGHT : Nat := 275
def SDLK_LEFT : Nat := 276
def SDLK_HOME : Nat := 278
def SDLK_END : Nat := 279
def SDLK_F1 : Nat := 282
def SDLK_F12 : Nat := 293
def SDLK_RSHIFT : Nat := 303
def SDLK_LSHIFT : Nat := 304

def KMOD_SHIFT : Nat := 0x0001 ||| 0x0002
def KMOD_CTRL : Nat := 0x0040 ||| 0x0080
def KMOD_ALT : Nat := 0x0100 ||| 0x0200

/-! ## Types of the driver interface -/

/-- The enumerators of `KeyType` that `VideoSDL.cpp` names. The enum is declared
in the driver interface headers, so its numeric values are parameters here. -/
structure KeyTypes where
  KT_INVALID : Nat
  KT_SPACE : Nat
  KT_RETURN : Nat
  KT_LEFT : Nat
  KT_UP : Nat
  KT_RIGHT : Nat
  KT_DOWN : Nat
  KT_BACKSPACE : Nat
  KT_DELETE : Nat
  KT_SHIFT : Nat
  KT_TAB : Nat
  KT_F1 : Nat
  KT_END : Nat
  KT_HOME : Nat
  KT_ESCAPE : Nat
  KT_CHAR : Nat
deriving DecidableEq, Repr

/-- The enumerators written by the key translation differ from `KT_INVALID`:
the named special keys, the twelve consecutive values from `KT_F1`, and `KT_CHAR`. -/
def KeyTypes.invalidIsFresh (k : KeyTypes) : Prop :=
  k.KT_SPACE ≠ k.KT_INVALID ∧ k.KT_RETURN ≠ k.KT_INVALID ∧ k.KT_LEFT ≠ k.KT_INVALID ∧
  k.KT_UP ≠ k.KT_INVALID ∧ k.KT_RIGHT ≠ k.KT_INVALID ∧ k.KT_DOWN ≠ k.KT_INVALID ∧
  k.KT_BACKSPACE ≠ k.KT_INVALID ∧ k.KT_DELETE ≠ k.KT_INVALID ∧ k.KT_SHIFT ≠ k.KT_INVALID ∧
  k.KT_TAB ≠ k.KT_INVALID ∧ k.KT_END ≠ k.KT_INVALID ∧ k.KT_HOME ≠ k.KT_INVALID ∧
  k.KT_ESCAPE ≠ k.KT_INVALID ∧ k.KT_CHAR ≠ k.KT_INVALID ∧
  (k.KT_INVALID < k.KT_F1 ∨ k.KT_F1 + 11 < k.KT_INVALID)

instance (k : KeyTypes) : Decidable k.invalidIsFresh := by
  unfold KeyTypes.invalidIsFresh; infer_instance

/-- An assignment of enumerator values: counted in declaration order from
`KT_INVALID = 0`, the function keys consecutive from `KT_F1`, and `KT_CHAR = 0xFFFF`. -/
def rttrKeyTypes : KeyTypes :=
  { KT_INVALID := 0, KT_SPACE := 1, KT_RETURN := 2, KT_LEFT := 3, KT_UP := 4, KT_RIGHT := 5,
    KT_DOWN := 6, KT_BACKSPACE := 7, KT_DELETE := 8, KT_SHIFT := 9, KT_TAB := 10, KT_F1 := 11,
    KT_END := 23, KT_HOME := 24, KT_ESCAPE := 25, KT_CHAR := 0xFFFF }

structure KeyEvent where
  kt : Nat
  c : Nat
  ctrl : Bool
  shift : Bool
  alt : Bool
deriving DecidableEq, Repr

structure MouseCoords where
  x : Nat
  y : Nat
  ldown : Bool
  rdown : Bool
deriving DecidableEq, Repr

/-- A video mode is a width and a height, compared componentwise. -/
structure VideoMode where
  width : Nat
  height : Nat
deriving DecidableEq, Repr

/-- One entry of the SDL event queue, by `ev.type`, with the fields the loop reads. -/
inductive SDL_Event where
  | quit
  | active (state gain : Nat)
  | videoResize (w h : Int)
  | keyDown (sym mod unicode : Nat)
  | mouseButtonDown (button x y : Nat)
  | mouseButtonUp (button x y : Nat)
  | mouseMotion (x y : Nat)
  | other
deriving DecidableEq, Repr

/-- Calls leaving the driver: SDL functions with an effect on the window, and
the methods of the `CallBack` interface. -/
inductive Call where
  | SDL_GL_SetAttribute
  | SDL_SetVideoMode (width height bpp flags : Nat)
  | SDL_WM_SetCaption
  | SDL_ShowCursor
  | printError
  | ScreenResized (width height : Nat)
  | Msg_KeyDown (ke : KeyEvent)
  | Msg_LeftDown (mc : MouseCoords)
  | Msg_RightDown (mc : MouseCoords)
  | Msg_LeftUp (mc : MouseCoords)
  | Msg_RightUp (mc : MouseCoords)
  | Msg_WheelUp (mc : MouseCoords)
  | Msg_WheelDown (mc : MouseCoords)
  | Msg_MouseMove (mc : MouseCoords)
deriving DecidableEq, Repr

/-- What the driver runs against: the build target and the answer of
`SDL_SetVideoMode` (a surface handle, or `none` for a null pointer). -/
structure Env where
  win32 : Bool
  setVideoMode : Nat → Nat → Nat → Nat → Option Nat

/-- The members of `VideoSDL` (with those inherited from `VideoDriver`) and the
function-static `mouse_motion` of `MessageLoop`. -/
structure State where
  initialized : Bool
  screen : Option Nat
  screenWidth : Nat
  screenHeight : Nat
  isFullscreen_ : Bool
  keyboard : List Bool
  mouse_xy : MouseCoords
  mouse_motion : Bool
deriving DecidableEq, Repr

/-! ## Screen creation -/

/-- The flags argument both screen functions pass to `SDL_SetVideoMode`. -/
def videoFlags (isFullscreen : Bool) : Nat :=
  SDL_HWSURFACE ||| SDL_DOUBLEBUF ||| SDL_OPENGL |||
    (if isFullscreen then SDL_FULLSCREEN else SDL_RESIZABLE)

/-- Embedding of `VideoSDL::CreateScreen`: the result, the new state and the calls made. -/
def CreateScreen (env : Env) (st : State) (width height : Nat) (fullscreen : Bool) :
    Bool × State × List Call :=
  if !st.initialized then
    (false, st, [])
  else
    let attrs := List.replicate 5 Call.SDL_GL_SetAttribute
    let fs := if env.win32 then false else fullscreen
    let st1 := { st with isFullscreen_ := fs }
    let flags := videoFlags st1.isFullscreen_
    let screen := env.setVideoMode width height 32 flags
    let st2 := { st1 with screen := screen }
    let calls := attrs ++ [Call.SDL_SetVideoMode width height 32 flags]
    match screen with
    | none => (false, st2, calls ++ [Call.printError])
    | some _ =>
      let st3 := { st2 with keyboard := st2.keyboard.map (fun _ => false) }
      let st4 := { st3 with screenWidth := width, screenHeight := height }
      (true, st4, calls ++ [Call.SDL_WM_SetCaption, Call.SDL_ShowCursor])

/-- Embedding of `VideoSDL::ResizeScreen`: the result, the new state and the calls made. -/
def ResizeScreen (env : Env) (st : State) (width height : Nat) (fullscreen : Bool) :
    Bool × State × List Call :=
  if !st.initialized then
    (false, st, [])
  else
    let st1 := { st with screenWidth := width, screenHeight := height }
    let fs := if env.win32 then false else fullscreen
    let st2 := { st1 with isFullscreen_ := fs }
    let flags := videoFlags st2.isFullscreen_
    let screen := env.setVideoMode width height 32 flags
    let st3 := { st2 with screen := screen }
    let calls := [Call.SDL_SetVideoMode width height 32 flags]
    match screen with
    | none => (false, st3, calls ++ [Call.printError])
    | some _ => (true, st3, calls)

/-- Whether a call is a call of `SDL_SetVideoMode`. -/
def Call.isSetVideoMode : Call → Bool
  | .SDL_SetVideoMode _ _ _ _ => true
  | _ => false

/-! ## The message loop -/

/-- Conversion of an `int` argument to the `unsigned short` parameter. -/
def toUShort (i : Int) : Nat := (i % 65536).toNat

/-- The `switch(ev.key.keysym.sym)` of the `SDL_KEYDOWN` case, entered with
`ke.kt == KT_INVALID`: the values of `ke.kt` and of `ev.key.keysym.unicode` after it. -/
def keySwitch (k : KeyTypes) (sym unicode : Nat) : Nat × Nat :=
  if sym = SDLK_RETURN then (k.KT_RETURN, unicode)
  else if sym = SDLK_SPACE then (k.KT_SPACE, unicode)
  else if sym = SDLK_LEFT then (k.KT_LEFT, unicode)
  else if sym = SDLK_RIGHT then (k.KT_RIGHT, unicode)
  else if sym = SDLK_UP then (k.KT_UP, unicode)
  else if sym = SDLK_DOWN then (k.KT_DOWN, unicode)
  else if sym = SDLK_BACKSPACE then (k.KT_BACKSPACE, unicode)
  else if sym = SDLK_DELETE then (k.KT_DELETE, unicode)
  else if sym = SDLK_LSHIFT then (k.KT_SHIFT, unicode)
  else if sym = SDLK_RSHIFT then (k.KT_SHIFT, unicode)
  else if sym = SDLK_TAB then (k.KT_TAB, unicode)
  else if sym = SDLK_HOME then (k.KT_HOME, unicode)
  else if sym = SDLK_END then (k.KT_END, unicode)
  else if sym = SDLK_ESCAPE then (k.KT_ESCAPE, unicode)
  else if sym = SDLK_BACKQUOTE then (k.KT_INVALID, 94)
  else if SDLK_F1 ≤ sym ∧ sym ≤ SDLK_F12 then (k.KT_F1 + sym - SDLK_F1, unicode)
  else (k.KT_INVALID, unicode)

/-- The `SDL_KEYDOWN` case up to the callback: the `KeyEvent` handed to `Msg_KeyDown`. -/
def translateKey (k : KeyTypes) (sym mod unicode : Nat) : KeyEvent :=
  let ke : KeyEvent := { kt := k.KT_INVALID, c := 0, ctrl := false, shift := false, alt := false }
  let sw := keySwitch k sym unicode
  let ke := { ke with kt := sw.1 }
  let ke := if mod &&& KMOD_CTRL ≠ 0 then { ke with ctrl := true } else ke
  let ke := if mod &&& KMOD_SHIFT ≠ 0 then { ke with shift := true } else ke
  let ke := if mod &&& KMOD_ALT ≠ 0 then { ke with alt := true } else ke
  if ke.kt = k.KT_INVALID then { ke with kt := k.KT_CHAR, c := sw.2 } else ke

/-- One pass through the body of the `switch(ev.type)` for an event other than
`SDL_QUIT`: the new state and the calls made. -/
def handleEvent (env : Env) (k : KeyTypes) (st : State) : SDL_Event → State × List Call
  | .quit => (st, [])
  | .other => (st, [])
  | .active state gain =>
    if state &&& SDL_APPACTIVE ≠ 0 ∧ gain ≠ 0 then
      (st, [Call.ScreenResized st.screenWidth st.screenHeight])
    else (st, [])
  | .videoResize w h =>
    let (_, st1, calls) := ResizeScreen env st (toUShort w) (toUShort h) st.isFullscreen_
    (st1, calls ++ [Call.ScreenResized st1.screenWidth st1.screenHeight])
  | .keyDown sym mod unicode => (st, [Call.Msg_KeyDown (translateKey k sym mod unicode)])
  | .mouseButtonDown button x y =>
    let st1 := { st with mouse_xy := { st.mouse_xy with x := x, y := y } }
    let (st2, c1) :=
      if button = SDL_BUTTON_LEFT then
        let s := { st1 with mouse_xy := { st1.mouse_xy with ldown := true } }
        (s, [Call.Msg_LeftDown s.mouse_xy])
      else (st1, [])
    let (st3, c2) :=
      if button = SDL_BUTTON_RIGHT then
        let s := { st2 with mouse_xy := { st2.mouse_xy with rdown := true } }
        (s, [Call.Msg_RightDown s.mouse_xy])
      else (st2, [])
    (st3, c1 ++ c2)
  | .mouseButtonUp button x y =>
    let st1 := { st with mouse_xy := { st.mouse_xy with x := x, y := y } }
    let (st2, c1) :=
      if button = SDL_BUTTON_LEFT then
        let s := { st1 with mouse_xy := { st1.mouse_xy with ldown := false } }
        (s, [Call.Msg_LeftUp s.mouse_xy])
      else (st1, [])
    let (st3, c2) :=
      if button = SDL_BUTTON_RIGHT then
        let s := { st2 with mouse_xy := { st2.mouse_xy with rdown := false } }
        (s, [Call.Msg_RightUp s.mouse_xy])
      else (st2, [])
    let c3 := if button = SDL_BUTTON_WHEELUP then [Call.Msg_WheelUp st3.mouse_xy] else []
    let c4 := if button = SDL_BUTTON_WHEELDOWN then [Call.Msg_WheelDown st3.mouse_xy] else []
    (st3, c1 ++ c2 ++ c3 ++ c4)
  | .mouseMotion x y =>
    if !st.mouse_motion then
      let s := { st with mouse_xy := { st.mouse_xy with x := x, y := y }, mouse_motion := true }
      (s, [Call.Msg_MouseMove s.mouse_xy])
    else (st, [])

/-- What one run of `MessageLoop` leaves behind. -/
structure LoopResult where
  result : Bool
  state : State
  /-- the events `SDL_PollEvent` handed out, in order -/
  polled : List SDL_Event
  /-- the events still in the queue -/
  pending : List SDL_Event
  calls : List Call
deriving DecidableEq, Repr

/-- Embedding of `VideoSDL::MessageLoop` over the queue of pending events: `SDL_PollEvent`
takes the head of the queue and yields 0 on the empty queue. -/
def MessageLoop (env : Env) (k : KeyTypes) : State → List SDL_Event → LoopResult
  | st, [] =>
    { result := true, state := { st with mouse_motion := false },
      polled := [], pending := [], calls := [] }
  | st, .quit :: rest =>
    { result := false, state := st, polled := [.quit], pending := rest, calls := [] }
  | st, ev :: rest =>
    let (st1, cs) := handleEvent env k st ev
    let r := MessageLoop env k st1 rest
    { r with polled := ev :: r.polled, calls := cs ++ r.calls }

/-- The state and the calls after the switch body has run on each event of a
list in order. -/
def handleAll (env : Env) (k : KeyTypes) : State → List SDL_Event → State × List Call
  | st, [] => (st, [])
  | st, ev :: rest =>
    let (st1, cs) := handleEvent env k st ev
    let (st2, cs2) := handleAll env k st1 rest
    (st2, cs ++ cs2)

/-! ## What the callbacks owe to the events -/

/-- The six mouse button callbacks of the `CallBack` interface. -/
inductive ButtonMsg where
  | leftDown
  | rightDown
  | leftUp
  | rightUp
  | wheelUp
  | wheelDown
deriving DecidableEq, Repr

/-- The argument of a call of `Msg_KeyDown`. -/
def Call.keyArg : Call → Option KeyEvent
  | .Msg_KeyDown ke => some ke
  | _ => none

/-- The callback and the mouse position of a call of a mouse button callback. -/
def Call.buttonArg : Call → Option (ButtonMsg × Nat × Nat)
  | .Msg_LeftDown mc => some (.leftDown, mc.x, mc.y)
  | .Msg_RightDown mc => some (.rightDown, mc.x, mc.y)
  | .Msg_LeftUp mc => some (.leftUp, mc.x, mc.y)
  | .Msg_RightUp mc => some (.rightUp, mc.x, mc.y)
  | .Msg_WheelUp mc => some (.wheelUp, mc.x, mc.y)
  | .Msg_WheelDown mc => some (.wheelDown, mc.x, mc.y)
  | _ => none

/-- The mouse position of a call of `Msg_MouseMove`. -/
def Call.moveArg : Call → Option (Nat × Nat)
  | .Msg_MouseMove mc => some (mc.x, mc.y)
  | _ => none

/-- The arguments of a call of `ScreenResized`. -/
def Call.resizedArg : Call → Option (Nat × Nat)
  | .ScreenResized width height => some (width, height)
  | _ => none

/-- The `Msg_KeyDown` argument an event is due: every key press has one. -/
def SDL_Event.keyDue (k : KeyTypes) : SDL_Event → Option KeyEvent
  | .keyDown sym mod unicode => some (translateKey k sym mod unicode)
  | _ => none

/-- The mouse button callback an event is due, with the position of the event: a
press of the left or right button, a release of the left, right or a wheel button. -/
def SDL_Event.buttonDue : SDL_Event → Option (ButtonMsg × Nat × Nat)
  | .mouseButtonDown button x y =>
    if button = SDL_BUTTON_LEFT then some (.leftDown, x, y)
    else if button = SDL_BUTTON_RIGHT then some (.rightDown, x, y)
    else none
  | .mouseButtonUp button x y =>
    if button = SDL_BUTTON_LEFT then some (.leftUp, x, y)
    else if button = SDL_BUTTON_RIGHT then some (.rightUp, x, y)
    else if button = SDL_BUTTON_WHEELUP then some (.wheelUp, x, y)
    else if button = SDL_BUTTON_WHEELDOWN then some (.wheelDown, x, y)
    else none
  | _ => none

/-- The position of a mouse motion event. -/
def SDL_Event.moveDue : SDL_Event → Option (Nat × Nat)
  | .mouseMotion x y => some (x, y)
  | _ => none

/-- The screen size after an event: a resize event sets it on an initialized driver. -/
def SDL_Event.sizeAfter (initialized : Bool) (size : Nat × Nat) : SDL_Event → Nat × Nat
  | .videoResize w h => if initialized then (toUShort w, toUShort h) else size
  | _ => size

/-- The `ScreenResized` arguments an event is due: a resize event the size after it,
an activation that regains the application the current size. -/
def SDL_Event.resizedDue (initialized : Bool) (size : Nat × Nat) : SDL_Event → Option (Nat × Nat)
  | .videoResize w h => some (SDL_Event.sizeAfter initialized size (.videoResize w h))
  | .active state gain => if state &&& SDL_APPACTIVE ≠ 0 ∧ gain ≠ 0 then some size else none
  | _ => none

/-- The `ScreenResized` arguments a list of events is due, from a given screen size on. -/
def resizedDueAll (initialized : Bool) : Nat × Nat → List SDL_Event → List (Nat × Nat)
  | _, [] => []
  | size, ev :: evs =>
    (SDL_Event.resizedDue initialized size ev).toList ++
      resizedDueAll initialized (SDL_Event.sizeAfter initialized size ev) evs

/-- The callbacks `calls` are the ones the events `evs` are due on a driver in state
`st`, each kind in the order of the events: every key press reaches `Msg_KeyDown`,
every button event with a handler its button callback, every resize and regained
activation `ScreenResized`, and of the mouse motions only the first reaches
`Msg_MouseMove`, and only while the loop's `mouse_motion` flag is not set. Events of
no other kind reach a callback. -/
def Dispatched (k : KeyTypes) (st : State) (evs : List SDL_Event) (calls : List Call) : Prop :=
  calls.filterMap Call.keyArg = evs.filterMap (SDL_Event.keyDue k) ∧
  calls.filterMap Call.buttonArg = evs.filterMap SDL_Event.buttonDue ∧
  calls.filterMap Call.moveArg =
    (if st.mouse_motion then [] else (evs.filterMap SDL_Event.moveDue).take 1) ∧
  calls.filterMap Call.resizedArg =
    resizedDueAll st.initialized (st.screenWidth, st.screenHeight) evs

instance (k : KeyTypes) (st : State) (evs : List SDL_Event) (calls : List Call) :
    Decidable (Dispatched k st evs calls) := by
  unfold Dispatched; infer_instance

/-- The special keys the `SDL_KEYDOWN` case maps to a key type of their own, each
with that key type. -/
def specialKeys (k : KeyTypes) : List (Nat × Nat) :=
  [ (SDLK_RETURN, k.KT_RETURN), (SDLK_SPACE, k.KT_SPACE), (SDLK_LEFT, k.KT_LEFT),
    (SDLK_RIGHT, k.KT_RIGHT), (SDLK_UP, k.KT_UP), (SDLK_DOWN, k.KT_DOWN),
    (SDLK_BACKSPACE, k.KT_BACKSPACE), (SDLK_DELETE, k.KT_DELETE), (SDLK_LSHIFT, k.KT_SHIFT),
    (SDLK_RSHIFT, k.KT_SHIFT), (SDLK_TAB, k.KT_TAB), (SDLK_HOME, k.KT_HOME),
    (SDLK_END, k.KT_END), (SDLK_ESCAPE, k.KT_ESCAPE) ]

/-- A driver on which `Initialize` has not succeeded. -/
def idleState : State :=
  { initialized := false, screen := none, screenWidth := 0, screenHeight := 0,
    isFullscreen_ := false, keyboard := [false, true], mouse_xy := ⟨0, 0, false, false⟩,
    mouse_motion := false }

/-- An initialized driver showing an 800 x 600 window. -/
def runningState : State :=
  { initialized := true, screen := some 1, screenWidth := 800, screenHeight := 600,
    isFullscreen_ := false, keyboard := [false, true], mouse_xy := ⟨0, 0, false, false⟩,
    mouse_motion := false }

/-- A non-Windows build on which every video mode can be set. -/
def sampleEnv : Env := { win32 := false, setVideoMode := fun _ _ _ _ => some 1 }

/-! ## Video modes -/

/-- Embedding of `VideoSDL::ListVideoModes`: `modes` is the null-terminated array returned by
`SDL_ListModes`, and `helpers::contains` is membership in the vector. -/
def ListVideoModes (video_modes : List VideoMode) (modes : List (Nat × Nat)) : List VideoMode :=
  modes.foldl
    (fun vms m =>
      let vm : VideoMode := { width := m.1, height := m.2 }
      if !(vms.contains vm) then vms ++ [vm] else vms)
    video_modes

end VideoSDL

namespace Territory

/-! ## The world grid, modelled from the specification -/

/-- Modelled from the spec: the missing type `MapPoint`, an ordered pair of unsigned
grid coordinates, equal by coordinate pair. -/
structure MapPoint where
  x : Nat
  y : Nat
deriving DecidableEq, Repr

/-- Modelled from the spec: the missing validity of a `MapPoint` on a grid, valid only
within `[0, width) × [0, height)`. -/
def isValid (width height : Nat) (p : MapPoint) : Prop := p.x < width ∧ p.y < height

instance (width height : Nat) (p : MapPoint) : Decidable (isValid width height p) := by
  unfold isValid; infer_instance

/-- Modelled from the spec: the missing neighbour enumeration of the Point Space
(section 4.1). The six adjacent points of the axial hex adjacency (west, north-west,
north-east, east, south-east, south-west), each coordinate wrapped into the grid
bounds. -/
def GetNeighbours (width height : Nat) (p : MapPoint) : List MapPoint :=
  [ { x := (p.x + width - 1) % width, y := p.y % height },
    { x := p.x % width, y := (p.y + height - 1) % height },
    { x := (p.x + 1) % width, y := (p.y + height - 1) % height },
    { x := (p.x + 1) % width, y := p.y % height },
    { x := p.x % width, y := (p.y + 1) % height },
    { x := (p.x + width - 1) % width, y := (p.y + 1) % height } ]

/-- Modelled from the spec: part of the missing `CalcDistance`. Append a point to a list
unless the list holds it already. -/
def addNew (acc : List MapPoint) (p : MapPoint) : List MapPoint :=
  if p ∈ acc then acc else acc ++ [p]

/-- Modelled from the spec: part of the missing `CalcDistance`. The points that exactly
`k` adjacency steps from `a` can end on. -/
def stepsFrom (width height : Nat) (a : MapPoint) : Nat → List MapPoint
  | 0 => [a]
  | k + 1 => ((stepsFrom width height a k).flatMap (GetNeighbours width height)).foldl addNew []

/-- Modelled from the spec: part of the missing `CalcDistance`. The first step count
from `k` on, among `fuel` candidates, at which `b` can be reached from `a`. -/
def firstStepCount (width height : Nat) (a b : MapPoint) : Nat → Nat → Nat
  | 0, k => k
  | fuel + 1, k =>
    if b ∈ stepsFrom width height a k then k
    else firstStepCount width height a b fuel (k + 1)

/-- Modelled from the spec: the missing `CalcDistance` of the Point Space (section
4.1), the minimum number of adjacency steps connecting `a` to `b` on the wrap-around
grid. No two points of the grid are more than `width + height` steps apart, which
bounds the search. -/
def CalcDistance (width height : Nat) (a b : MapPoint) : Nat :=
  firstStepCount width height a b (width + height) 0

/-- Modelled from the spec: part of the missing `GetPointsInRadius`. The expanding-ring
walk from `c`: after `r` rounds, the points seen so far (in scan order) and the
outermost ring. -/
def ringWalk (width height : Nat) (c : MapPoint) : Nat → List MapPoint × List MapPoint
  | 0 => ([c], [c])
  | r + 1 =>
    let (seen, ring) := ringWalk width height c r
    let next := (ring.flatMap (GetNeighbours width height)).foldl
      (fun acc p => if p ∈ seen ∨ p ∈ acc then acc else acc ++ [p]) []
    (seen ++ next, next)

/-- Modelled from the spec: the missing `GetPointsInRadius` of the Radius Query
(section 4.2), an expanding-ring walk from `center` over radius 0, 1, 2, … up to
`radius`, using the neighbour relation. -/
def GetPointsInRadius (width height : Nat) (center : MapPoint) (radius : Nat) : List MapPoint :=
  (ringWalk width height center radius).1

/-- Modelled from the spec: the missing territory-granting building, with its position,
radius and owning player id. -/
structure Building where
  pos : MapPoint
  radius : Nat
  owner : Nat
deriving DecidableEq, Repr

/-- Modelled from the spec: the missing world object, holding the fixed dimensions, the
granting buildings in placement order, and the Ownership Table (owner 0 is unowned,
else a 1-based player id). -/
structure World where
  width : Nat
  height : Nat
  buildings : List Building
  owner : MapPoint → Nat

/-- Modelled from the spec: the missing empty world of the test fixture, without
buildings and with no point owned. -/
def emptyWorld (width height : Nat) : World :=
  { width := width, height := height, buildings := [], owner := fun _ => 0 }

/-- Modelled from the spec: the missing `GetOwner` of the Ownership Table (section 4.3). -/
def GetOwner (w : World) (p : MapPoint) : Nat := w.owner p

/-- Modelled from the spec: the missing `SetOwner` of the Ownership Table (section 4.3). -/
def SetOwner (w : World) (p : MapPoint) (player : Nat) : World :=
  { w with owner := fun q => if q = p then player else w.owner q }

/-- Modelled from the spec: the competing rule of the missing Territory Assignment
Engine (section 4.4). The present owner of `p` keeps it against a new building at `c`
when some building of that owner reaches `p` and is strictly closer to `p` than `c` is
(on a tie the newly placed building wins). -/
def keepsOwner (w : World) (p c : MapPoint) : Bool :=
  w.buildings.any fun b =>
    decide (b.owner = GetOwner w p) &&
    decide (CalcDistance w.width w.height b.pos p ≤ b.radius) &&
    decide (CalcDistance w.width w.height b.pos p < CalcDistance w.width w.height c p)

/-- Modelled from the spec: placement in the missing Territory Assignment Engine
(section 4.4). Every point within `radius` of `c` goes to `player` unless it has
another owner whose building is closer. -/
def PlaceBuilding (w : World) (c : MapPoint) (radius player : Nat) : World :=
  let assigned := (GetPointsInRadius w.width w.height c radius).foldl
    (fun acc p =>
      if GetOwner acc p ≠ 0 ∧ GetOwner acc p ≠ player ∧ keepsOwner acc p c = true then acc
      else SetOwner acc p player)
    w
  { assigned with buildings := w.buildings ++ [{ pos := c, radius := radius, owner := player }] }

/-- Modelled from the spec: the missing `IsBorderNode` of the Border Classifier
(section 4.5): the point is owned by `playerId` and at least one neighbour is not. -/
def IsBorderNode (w : World) (p : MapPoint) (playerId : Nat) : Bool :=
  decide (GetOwner w p = playerId) &&
    (GetNeighbours w.width w.height p).any fun n => decide (GetOwner w n ≠ playerId)

/-- Modelled from the spec: the missing `IsPlayerTerritory` (section 4.5): the point has
any owner. -/
def IsPlayerTerritory (w : World) (p : MapPoint) : Bool :=
  decide (GetOwner w p ≠ 0)

/-! ## Unwrapped offsets, for the proofs about the radius boundary -/

/-- The hexagon of radius `k` around the origin of the unwrapped axial plane. -/
def InHex (k u v : Int) : Prop :=
  -k ≤ u ∧ u ≤ k ∧ -k ≤ v ∧ v ≤ k ∧ -k ≤ u + v ∧ u + v ≤ k

instance (k u v : Int) : Decidable (InHex k u v) := by
  unfold InHex; infer_instance

/-- An unwrapped offset `u` that the wrapped coordinate `px` can stand for, seen
from the coordinate `cx`, on an axis of length `n`. -/
def Rep (n cx px : Nat) (u : Int) : Prop :=
  u = (px : Int) - cx ∨ u = (px : Int) - cx + n ∨ u = (px : Int) - cx - n

instance (n cx px : Nat) (u : Int) : Decidable (Rep n cx px u) := by
  unfold Rep; infer_instance

/-- The six unit steps of the axial hex adjacency, in the order of `GetNeighbours`. -/
def hexDirs : List (Int × Int) := [(-1, 0), (0, -1), (1, -1), (1, 0), (0, 1), (-1, 1)]

end Territory

/-! # Theorems about the world queries -/

namespace Territory

set_option maxRecDepth 100000

/-! ### Lists without repetition -/

theorem mem_foldl_addNew (l acc : List MapPoint) (p : MapPoint) :
    p ∈ l.foldl addNew acc ↔ p ∈ acc ∨ p ∈ l := by
  induction l generalizing acc with
  | nil => simp
  | cons q l ih =>
    simp only [List.foldl_cons, ih, addNew]
    split_ifs with hq
    · constructor
      · rintro (h | h)
        · exact Or.inl h
        · exact Or.inr (List.mem_cons_of_mem _ h)
      · rintro (h | h)
        · exact Or.inl h
        · rcases List.mem_cons.1 h with rfl | h
          · exact Or.inl hq
          · exact Or.inr h
    · simp only [List.mem_append, List.mem_singleton, List.mem_cons]
      tauto

theorem mem_stepsFrom_succ (w h : Nat) (a p : MapPoint) (k : Nat) :
    p ∈ stepsFrom w h a (k + 1) ↔ ∃ m ∈ stepsFrom w h a k, p ∈ GetNeighbours w h m := by
  simp [stepsFrom, mem_foldl_addNew, List.mem_flatMap]

/-! ### Wrapped coordinates -/

theorem succ_mod_eq {w x : Nat} (hx : x < w) :
    (x + 1) % w = if x + 1 = w then 0 else x + 1 := by
  split_ifs with h
  · rw [h, Nat.mod_self]
  · exact Nat.mod_eq_of_lt (by omega)

theorem pred_mod_eq {w x : Nat} (hx : x < w) :
    (x + w - 1) % w = if x = 0 then w - 1 else x - 1 := by
  split_ifs with h
  · subst h
    rw [Nat.zero_add]
    exact Nat.mod_eq_of_lt (by omega)
  · have : x + w - 1 = (x - 1) + w := by omega
    rw [this, Nat.add_mod_right]
    exact Nat.mod_eq_of_lt (by omega)

/-- The six neighbours of a valid point, with the wrap written out. -/
theorem mem_GetNeighbours_of_valid {w h : Nat} {p q : MapPoint} (hp : isValid w h p) :
    q ∈ GetNeighbours w h p ↔
      (q.x = (if p.x = 0 then w - 1 else p.x - 1) ∧ q.y = p.y) ∨
      (q.x = p.x ∧ q.y = (if p.y = 0 then h - 1 else p.y - 1)) ∨
      (q.x = (if p.x + 1 = w then 0 else p.x + 1) ∧ q.y = (if p.y = 0 then h - 1 else p.y - 1)) ∨
      (q.x = (if p.x + 1 = w then 0 else p.x + 1) ∧ q.y = p.y) ∨
      (q.x = p.x ∧ q.y = (if p.y + 1 = h then 0 else p.y + 1)) ∨
      (q.x = (if p.x = 0 then w - 1 else p.x - 1) ∧ q.y = (if p.y + 1 = h then 0 else p.y + 1)) := by
  obtain ⟨hx, hy⟩ := hp
  cases q with
  | mk qx qy =>
    simp only [GetNeighbours, List.mem_cons, List.mem_singleton, MapPoint.mk.injEq,
      succ_mod_eq hx, succ_mod_eq hy, pred_mod_eq hx, pred_mod_eq hy,
      Nat.mod_eq_of_lt hx, Nat.mod_eq_of_lt hy, List.not_mem_nil, or_false]

theorem GetNeighbours_valid {w h : Nat} (hw : 0 < w) (hh : 0 < h) (p q : MapPoint)
    (hq : q ∈ GetNeighbours w h p) : isValid w h q := by
  simp only [GetNeighbours, List.mem_cons, List.mem_singleton, List.not_mem_nil, or_false] at hq
  rcases hq with rfl | rfl | rfl | rfl | rfl | rfl <;>
    exact ⟨Nat.mod_lt _ hw, Nat.mod_lt _ hh⟩

theorem GetNeighbours_symm {w h : Nat} {p q : MapPoint} (hp : isValid w h p)
    (hq : isValid w h q) (hqp : q ∈ GetNeighbours w h p) : p ∈ GetNeighbours w h q := by
  rw [mem_GetNeighbours_of_valid hp] at hqp
  rw [mem_GetNeighbours_of_valid hq]
  obtain ⟨hpx, hpy⟩ := hp
  obtain ⟨hqx, hqy⟩ := hq
  rcases hqp with ⟨h1, h2⟩ | ⟨h1, h2⟩ | ⟨h1, h2⟩ | ⟨h1, h2⟩ | ⟨h1, h2⟩ | ⟨h1, h2⟩
  · right; right; right; left
    split_ifs at h1 h2 ⊢ <;> omega
  · right; right; right; right; left
    split_ifs at h1 h2 ⊢ <;> omega
  · right; right; right; right; right
    split_ifs at h1 h2 ⊢ <;> omega
  · left
    split_ifs at h1 h2 ⊢ <;> omega
  · right; left
    split_ifs at h1 h2 ⊢ <;> omega
  · right; right; left
    split_ifs at h1 h2 ⊢ <;> omega

/-! ### Walks -/

theorem stepsFrom_valid {w h : Nat} {a : MapPoint} (ha : isValid w h a) (k : Nat) (p : MapPoint)
    (hp : p ∈ stepsFrom w h a k) : isValid w h p := by
  cases k with
  | zero =>
    simp only [stepsFrom, List.mem_singleton] at hp
    exact hp ▸ ha
  | succ k =>
    obtain ⟨m, _, hm⟩ := (mem_stepsFrom_succ w h a p k).1 hp
    exact GetNeighbours_valid (by unfold isValid at ha; omega) (by unfold isValid at ha; omega) m p hm

/-- A walk of `k + 1` steps is a first step followed by a walk of `k` steps. -/
theorem mem_stepsFrom_succ_first (w h : Nat) (a p : MapPoint) (k : Nat) :
    p ∈ stepsFrom w h a (k + 1) ↔ ∃ n ∈ GetNeighbours w h a, p ∈ stepsFrom w h n k := by
  induction k generalizing p with
  | zero =>
    rw [mem_stepsFrom_succ]
    simp [stepsFrom]
  | succ k ih =>
    rw [mem_stepsFrom_succ]
    constructor
    · rintro ⟨m, hm, hpm⟩
      obtain ⟨n, hn, hmn⟩ := (ih m).1 hm
      exact ⟨n, hn, (mem_stepsFrom_succ w h n p k).2 ⟨m, hmn, hpm⟩⟩
    · rintro ⟨n, hn, hpn⟩
      obtain ⟨m, hm, hpm⟩ := (mem_stepsFrom_succ w h n p k).1 hpn
      exact ⟨m, (ih m).2 ⟨n, hn, hm⟩, hpm⟩

theorem stepsFrom_symm_imp {w h : Nat} (k : Nat) : ∀ {a b : MapPoint}, isValid w h a →
    isValid w h b → b ∈ stepsFrom w h a k → a ∈ stepsFrom w h b k := by
  induction k with
  | zero =>
    intro a b _ _ hb
    simp only [stepsFrom, List.mem_singleton] at hb ⊢
    exact hb.symm
  | succ k ih =>
    intro a b ha hb hab
    obtain ⟨m, hm, hbm⟩ := (mem_stepsFrom_succ w h a b k).1 hab
    have hmv : isValid w h m := stepsFrom_valid ha k m hm
    exact (mem_stepsFrom_succ_first w h b a k).2
      ⟨m, GetNeighbours_symm hmv hb hbm, ih ha hmv hm⟩

theorem stepsFrom_symm {w h : Nat} {a b : MapPoint} (ha : isValid w h a) (hb : isValid w h b)
    (k : Nat) : b ∈ stepsFrom w h a k ↔ a ∈ stepsFrom w h b k :=
  ⟨stepsFrom_symm_imp k ha hb, stepsFrom_symm_imp k hb ha⟩

/-! ### The distance search -/

theorem firstStepCount_congr {w h : Nat} {a b a' b' : MapPoint}
    (hiff : ∀ k, b ∈ stepsFrom w h a k ↔ b' ∈ stepsFrom w h a' k) (fuel k : Nat) :
    firstStepCount w h a b fuel k = firstStepCount w h a' b' fuel k := by
  induction fuel generalizing k with
  | zero => rfl
  | succ fuel ih =>
    simp only [firstStepCount, hiff k, ih]

theorem firstStepCount_not_mem (w h : Nat) (a b : MapPoint) (fuel k j : Nat)
    (hkj : k ≤ j) (hj : j < firstStepCount w h a b fuel k) : b ∉ stepsFrom w h a j := by
  induction fuel generalizing k with
  | zero => simp only [firstStepCount] at hj; omega
  | succ fuel ih =>
    simp only [firstStepCount] at hj
    split_ifs at hj with hk
    · omega
    · rcases Nat.eq_or_lt_of_le hkj with rfl | hlt
      · exact hk
      · exact ih (k + 1) hlt hj

theorem firstStepCount_mem (w h : Nat) (a b : MapPoint) (fuel k j : Nat)
    (hkj : k ≤ j) (hjf : j < k + fuel) (hj : b ∈ stepsFrom w h a j) :
    b ∈ stepsFrom w h a (firstStepCount w h a b fuel k) := by
  induction fuel generalizing k with
  | zero => omega
  | succ fuel ih =>
    simp only [firstStepCount]
    split_ifs with hk
    · exact hk
    · rcases Nat.eq_or_lt_of_le hkj with rfl | hlt
      · exact absurd hj hk
      · exact ih (k + 1) hlt (by omega)

/-! ### Every grid point is reached -/

theorem stepsFrom_east {w h : Nat} {a m : MapPoint} (hm : isValid w h m) (i j : Nat)
    (hmi : m ∈ stepsFrom w h a i) :
    (⟨(m.x + j) % w, m.y⟩ : MapPoint) ∈ stepsFrom w h a (i + j) := by
  induction j with
  | zero =>
    have : (⟨(m.x + 0) % w, m.y⟩ : MapPoint) = m := by
      cases m with
      | mk mx my => simp only [MapPoint.mk.injEq, Nat.add_zero, and_true]; exact Nat.mod_eq_of_lt hm.1
    rw [this]
    exact hmi
  | succ j ih =>
    refine (mem_stepsFrom_succ w h a _ (i + j)).2 ⟨_, ih, ?_⟩
    simp only [GetNeighbours, List.mem_cons, MapPoint.mk.injEq]
    right; right; right; left
    exact ⟨by rw [Nat.mod_add_mod]; rfl, (Nat.mod_eq_of_lt hm.2).symm⟩

theorem stepsFrom_south {w h : Nat} {a m : MapPoint} (hm : isValid w h m) (i j : Nat)
    (hmi : m ∈ stepsFrom w h a i) :
    (⟨m.x, (m.y + j) % h⟩ : MapPoint) ∈ stepsFrom w h a (i + j) := by
  induction j with
  | zero =>
    have : (⟨m.x, (m.y + 0) % h⟩ : MapPoint) = m := by
      cases m with
      | mk mx my => simp only [MapPoint.mk.injEq, Nat.add_zero, true_and]; exact Nat.mod_eq_of_lt hm.2
    rw [this]
    exact hmi
  | succ j ih =>
    refine (mem_stepsFrom_succ w h a _ (i + j)).2 ⟨_, ih, ?_⟩
    simp only [GetNeighbours, List.mem_cons, MapPoint.mk.injEq]
    right; right; right; right; left
    exact ⟨(Nat.mod_eq_of_lt hm.1).symm, by rw [Nat.mod_add_mod]; rfl⟩

theorem exists_mem_stepsFrom {w h : Nat} {a b : MapPoint} (ha : isValid w h a)
    (hb : isValid w h b) : ∃ j, j < w + h ∧ b ∈ stepsFrom w h a j := by
  have hw : 0 < w := by unfold isValid at ha; omega
  have hh : 0 < h := by unfold isValid at ha; omega
  have h0 : a ∈ stepsFrom w h a 0 := by simp [stepsFrom]
  have h1 := stepsFrom_east ha 0 ((b.x + w - a.x) % w) h0
  have hx : (a.x + (b.x + w - a.x) % w) % w = b.x := by
    rw [Nat.add_mod_mod]
    have : a.x + (b.x + w - a.x) = b.x + w := by unfold isValid at ha; omega
    rw [this, Nat.add_mod_right]
    exact Nat.mod_eq_of_lt hb.1
  rw [hx] at h1
  have hv : isValid w h ⟨b.x, a.y⟩ := ⟨hb.1, ha.2⟩
  have h2 := stepsFrom_south hv _ ((b.y + h - a.y) % h) h1
  have hy : (a.y + (b.y + h - a.y) % h) % h = b.y := by
    rw [Nat.add_mod_mod]
    have : a.y + (b.y + h - a.y) = b.y + h := by unfold isValid at ha; omega
    rw [this, Nat.add_mod_right]
    exact Nat.mod_eq_of_lt hb.2
  simp only [hy] at h2
  refine ⟨0 + (b.x + w - a.x) % w + (b.y + h - a.y) % h, ?_, h2⟩
  have := Nat.mod_lt (b.x + w - a.x) hw
  have := Nat.mod_lt (b.y + h - a.y) hh
  omega

/-! ### `CalcDistance` is the least number of steps -/

theorem CalcDistance_le_of_mem (w h : Nat) (a b : MapPoint) (j : Nat)
    (hj : b ∈ stepsFrom w h a j) : CalcDistance w h a b ≤ j := by
  by_contra hlt
  exact firstStepCount_not_mem w h a b (w + h) 0 j (Nat.zero_le _) (Nat.lt_of_not_le hlt) hj

theorem CalcDistance_mem {w h : Nat} {a b : MapPoint} (ha : isValid w h a)
    (hb : isValid w h b) : b ∈ stepsFrom w h a (CalcDistance w h a b) := by
  obtain ⟨j, hj, hmem⟩ := exists_mem_stepsFrom ha hb
  exact firstStepCount_mem w h a b (w + h) 0 j (Nat.zero_le _) (by omega) hmem

theorem CalcDistance_comm {w h : Nat} {a b : MapPoint} (ha : isValid w h a)
    (hb : isValid w h b) : CalcDistance w h a b = CalcDistance w h b a :=
  firstStepCount_congr (fun k => stepsFrom_symm ha hb k) (w + h) 0

/-! ### The ring walk -/

theorem mem_foldl_ring (seen l acc : List MapPoint) (q : MapPoint) :
    q ∈ l.foldl (fun acc p => if p ∈ seen ∨ p ∈ acc then acc else acc ++ [p]) acc ↔
      q ∈ acc ∨ (q ∈ l ∧ q ∉ seen) := by
  induction l generalizing acc with
  | nil => simp
  | cons p l ih =>
    simp only [List.foldl_cons, ih]
    split_ifs with hp
    · constructor
      · rintro (h | ⟨h1, h2⟩)
        · exact Or.inl h
        · exact Or.inr ⟨List.mem_cons_of_mem _ h1, h2⟩
      · rintro (h | ⟨h1, h2⟩)
        · exact Or.inl h
        · rcases List.mem_cons.1 h1 with rfl | h1
          · rcases hp with hp | hp
            · exact absurd hp h2
            · exact Or.inl hp
          · exact Or.inr ⟨h1, h2⟩
    · simp only [not_or] at hp
      simp only [List.mem_append, List.mem_singleton, List.mem_cons, List.not_mem_nil, or_false]
      constructor
      · rintro ((h | rfl) | ⟨h1, h2⟩)
        · exact Or.inl h
        · exact Or.inr ⟨Or.inl rfl, hp.1⟩
        · exact Or.inr ⟨Or.inr h1, h2⟩
      · rintro (h | ⟨rfl | h1, h2⟩)
        · exact Or.inl (Or.inl h)
        · exact Or.inl (Or.inr rfl)
        · exact Or.inr ⟨h1, h2⟩

theorem nodup_foldl_ring (seen l acc : List MapPoint) (hacc : acc.Nodup) :
    (l.foldl (fun acc p => if p ∈ seen ∨ p ∈ acc then acc else acc ++ [p]) acc).Nodup := by
  induction l generalizing acc with
  | nil => exact hacc
  | cons p l ih =>
    simp only [List.foldl_cons]
    split_ifs with hp
    · exact ih acc hacc
    · simp only [not_or] at hp
      refine ih _ ?_
      rw [List.nodup_append]
      refine ⟨hacc, List.nodup_singleton p, ?_⟩
      intro x hx hx'
      rw [List.mem_singleton] at hx'
      exact hp.2 (hx' ▸ hx)

theorem ringWalk_spec (w h : Nat) (c : MapPoint) (r : Nat) :
    (∀ p, p ∈ (ringWalk w h c r).2 ↔
      p ∈ stepsFrom w h c r ∧ ∀ j, j < r → p ∉ stepsFrom w h c j) ∧
    (∀ p, p ∈ (ringWalk w h c r).1 ↔ ∃ j, j ≤ r ∧ p ∈ stepsFrom w h c j) ∧
    (ringWalk w h c r).1.Nodup := by
  induction r with
  | zero =>
    refine ⟨fun p => ?_, fun p => ?_, ?_⟩
    · simp [ringWalk, stepsFrom]
    · simp [ringWalk, stepsFrom]
    · simp [ringWalk]
  | succ r ih =>
    obtain ⟨ihRing, ihSeen, ihNodup⟩ := ih
    rcases hrw : ringWalk w h c r with ⟨seen, ring⟩
    rw [hrw] at ihRing ihSeen ihNodup
    simp only at ihRing ihSeen ihNodup
    have hnext : ∀ p, p ∈ (ring.flatMap (GetNeighbours w h)).foldl
        (fun acc p => if p ∈ seen ∨ p ∈ acc then acc else acc ++ [p]) [] ↔
        p ∈ stepsFrom w h c (r + 1) ∧ ∀ j, j < r + 1 → p ∉ stepsFrom w h c j := by
      intro p
      rw [mem_foldl_ring, List.mem_flatMap]
      simp only [List.not_mem_nil, false_or]
      constructor
      · rintro ⟨⟨m, hm, hpm⟩, hps⟩
        refine ⟨(mem_stepsFrom_succ w h c p r).2 ⟨m, ((ihRing m).1 hm).1, hpm⟩, ?_⟩
        intro j hj hpj
        exact hps ((ihSeen p).2 ⟨j, by omega, hpj⟩)
      · rintro ⟨hp, hnot⟩
        obtain ⟨m, hm, hpm⟩ := (mem_stepsFrom_succ w h c p r).1 hp
        refine ⟨⟨m, (ihRing m).2 ⟨hm, ?_⟩, hpm⟩, ?_⟩
        · intro j hj hmj
          exact hnot (j + 1) (by omega) ((mem_stepsFrom_succ w h c p j).2 ⟨m, hmj, hpm⟩)
        · intro hps
          obtain ⟨j, hj, hpj⟩ := (ihSeen p).1 hps
          exact hnot j (by omega) hpj
    simp only [ringWalk, hrw]
    refine ⟨hnext, fun p => ?_, ?_⟩
    · rw [List.mem_append, hnext, ihSeen]
      constructor
      · rintro (⟨j, hj, hpj⟩ | ⟨hp, _⟩)
        · exact ⟨j, by omega, hpj⟩
        · exact ⟨r + 1, Nat.le_refl _, hp⟩
      · rintro ⟨j, hj, hpj⟩
        by_cases hex : ∃ i, i ≤ r ∧ p ∈ stepsFrom w h c i
        · exact Or.inl hex
        · right
          have hjr : j = r + 1 := by
            by_contra hne
            exact hex ⟨j, by omega, hpj⟩
          subst hjr
          exact ⟨hpj, fun i hi hpi => hex ⟨i, by omega, hpi⟩⟩
    · rw [List.nodup_append]
      refine ⟨ihNodup, nodup_foldl_ring seen _ [] List.nodup_nil, ?_⟩
      intro x hx hx'
      obtain ⟨j, hj, hxj⟩ := (ihSeen x).1 hx
      exact ((hnext x).1 hx').2 j (by omega) hxj

theorem mem_GetPointsInRadius (w h : Nat) (c p : MapPoint) (r : Nat) :
    p ∈ GetPointsInRadius w h c r ↔ ∃ j, j ≤ r ∧ p ∈ stepsFrom w h c j :=
  (ringWalk_spec w h c r).2.1 p

theorem GetPointsInRadius_nodup (w h : Nat) (c : MapPoint) (r : Nat) :
    (GetPointsInRadius w h c r).Nodup :=
  (ringWalk_spec w h c r).2.2

theorem mem_GetPointsInRadius_iff {w h : Nat} {c : MapPoint} (hc : isValid w h c) (p : MapPoint)
    (r : Nat) :
    p ∈ GetPointsInRadius w h c r ↔ isValid w h p ∧ CalcDistance w h c p ≤ r := by
  rw [mem_GetPointsInRadius]
  constructor
  · rintro ⟨j, hj, hpj⟩
    exact ⟨stepsFrom_valid hc j p hpj, Nat.le_trans (CalcDistance_le_of_mem w h c p j hpj) hj⟩
  · rintro ⟨hp, hd⟩
    exact ⟨_, hd, CalcDistance_mem hc hp⟩

/-! ### Unwrapped offsets -/

theorem rep_refl (n cx : Nat) : Rep n cx cx 0 := by
  unfold Rep; omega

theorem rep_zero {n cx px : Nat} (hc : cx < n) (hp : px < n) (h : Rep n cx px 0) : px = cx := by
  unfold Rep at h; omega

theorem rep_unique {n cx px : Nat} {u u' : Int} (h : Rep n cx px u) (h' : Rep n cx px u')
    (hlt : u - u' < n) (hgt : u' - u < n) : u = u' := by
  unfold Rep at h h'; omega

theorem rep_same {n cx px : Nat} {u : Int} (hp : px < n) (h : Rep n cx px u) :
    Rep n cx (px % n) u := by
  rw [Nat.mod_eq_of_lt hp]; exact h

theorem rep_inc {n cx px : Nat} {u : Int} (hc : cx < n) (hp : px < n) (h : Rep n cx px u)
    (hlo : -(n : Int) < u + 1) (hhi : u + 1 < n) : Rep n cx ((px + 1) % n) (u + 1) := by
  rw [succ_mod_eq hp]
  unfold Rep at h ⊢
  split_ifs <;> omega

theorem rep_dec {n cx px : Nat} {u : Int} (hc : cx < n) (hp : px < n) (h : Rep n cx px u)
    (hlo : -(n : Int) < u + -1) (hhi : u + -1 < n) : Rep n cx ((px + n - 1) % n) (u + -1) := by
  rw [pred_mod_eq hp]
  unfold Rep at h ⊢
  split_ifs <;> omega

/-- Each unit step from a valid point leads to one of its neighbours, whose
unwrapped offset is the offset of the point moved by that step. -/
theorem exists_neighbour_rep {w h : Nat} {c p : MapPoint} (hc : isValid w h c)
    (hp : isValid w h p) {u v : Int} (hu : Rep w c.x p.x u) (hv : Rep h c.y p.y v)
    {d : Int × Int} (hd : d ∈ hexDirs)
    (hu1 : -(w : Int) < u + d.1) (hu2 : u + d.1 < w)
    (hv1 : -(h : Int) < v + d.2) (hv2 : v + d.2 < h) :
    ∃ q, q ∈ GetNeighbours w h p ∧ Rep w c.x q.x (u + d.1) ∧ Rep h c.y q.y (v + d.2) := by
  obtain ⟨hcx, hcy⟩ := hc
  obtain ⟨hpx, hpy⟩ := hp
  simp only [hexDirs, List.mem_cons, List.mem_singleton, List.not_mem_nil, or_false] at hd
  rcases hd with rfl | rfl | rfl | rfl | rfl | rfl
  · refine ⟨⟨(p.x + w - 1) % w, p.y % h⟩, by simp [GetNeighbours], ?_, ?_⟩
    · exact rep_dec hcx hpx hu hu1 hu2
    · simpa using rep_same hpy hv
  · refine ⟨⟨p.x % w, (p.y + h - 1) % h⟩, by simp [GetNeighbours], ?_, ?_⟩
    · simpa using rep_same hpx hu
    · exact rep_dec hcy hpy hv hv1 hv2
  · refine ⟨⟨(p.x + 1) % w, (p.y + h - 1) % h⟩, by simp [GetNeighbours], ?_, ?_⟩
    · exact rep_inc hcx hpx hu hu1 hu2
    · exact rep_dec hcy hpy hv hv1 hv2
  · refine ⟨⟨(p.x + 1) % w, p.y % h⟩, by simp [GetNeighbours], ?_, ?_⟩
    · exact rep_inc hcx hpx hu hu1 hu2
    · simpa using rep_same hpy hv
  · refine ⟨⟨p.x % w, (p.y + 1) % h⟩, by simp [GetNeighbours], ?_, ?_⟩
    · simpa using rep_same hpx hu
    · exact rep_inc hcy hpy hv hv1 hv2
  · refine ⟨⟨(p.x + w - 1) % w, (p.y + 1) % h⟩, by simp [GetNeighbours], ?_, ?_⟩
    · exact rep_dec hcx hpx hu hu1 hu2
    · exact rep_inc hcy hpy hv hv1 hv2

/-- Each neighbour of a valid point lies one unit step away in unwrapped offsets. -/
theorem neighbour_rep {w h : Nat} {c p q : MapPoint} (hc : isValid w h c)
    (hp : isValid w h p) (hq : q ∈ GetNeighbours w h p) :
    ∃ d, d ∈ hexDirs ∧ ∀ u v : Int, Rep w c.x p.x u → Rep h c.y p.y v →
      -(w : Int) < u + d.1 → u + d.1 < w → -(h : Int) < v + d.2 → v + d.2 < h →
      Rep w c.x q.x (u + d.1) ∧ Rep h c.y q.y (v + d.2) := by
  obtain ⟨hcx, hcy⟩ := hc
  obtain ⟨hpx, hpy⟩ := hp
  simp only [GetNeighbours, List.mem_cons, List.mem_singleton, List.not_mem_nil, or_false] at hq
  rcases hq with rfl | rfl | rfl | rfl | rfl | rfl
  · exact ⟨(-1, 0), by simp [hexDirs], fun u v hu hv hu1 hu2 _ _ =>
      ⟨rep_dec hcx hpx hu hu1 hu2, by simpa using rep_same hpy hv⟩⟩
  · exact ⟨(0, -1), by simp [hexDirs], fun u v hu hv _ _ hv1 hv2 =>
      ⟨by simpa using rep_same hpx hu, rep_dec hcy hpy hv hv1 hv2⟩⟩
  · exact ⟨(1, -1), by simp [hexDirs], fun u v hu hv hu1 hu2 hv1 hv2 =>
      ⟨rep_inc hcx hpx hu hu1 hu2, rep_dec hcy hpy hv hv1 hv2⟩⟩
  · exact ⟨(1, 0), by simp [hexDirs], fun u v hu hv hu1 hu2 _ _ =>
      ⟨rep_inc hcx hpx hu hu1 hu2, by simpa using rep_same hpy hv⟩⟩
  · exact ⟨(0, 1), by simp [hexDirs], fun u v hu hv _ _ hv1 hv2 =>
      ⟨by simpa using rep_same hpx hu, rep_inc hcy hpy hv hv1 hv2⟩⟩
  · exact ⟨(-1, 1), by simp [hexDirs], fun u v hu hv hu1 hu2 hv1 hv2 =>
      ⟨rep_dec hcx hpx hu hu1 hu2, rep_inc hcy hpy hv hv1 hv2⟩⟩

/-! ### Hexagons in the unwrapped plane -/

theorem inHex_step {k u v : Int} {d : Int × Int} (hd : d ∈ hexDirs) (hk : InHex k u v) :
    InHex (k + 1) (u + d.1) (v + d.2) := by
  simp only [hexDirs, List.mem_cons, List.mem_singleton, List.not_mem_nil, or_false] at hd
  unfold InHex at hk ⊢
  rcases hd with rfl | rfl | rfl | rfl | rfl | rfl <;> simp only <;> omega

theorem exists_dir_inward {k u v : Int} (hk : InHex (k + 1) u v) (hnk : ¬ InHex k u v)
    (hk0 : 0 ≤ k) : ∃ d, d ∈ hexDirs ∧ InHex k (u + d.1) (v + d.2) := by
  unfold InHex at hk hnk ⊢
  by_cases h1 : 0 < v ∧ 0 ≤ u
  · exact ⟨(0, -1), by simp [hexDirs], by simp only; omega⟩
  by_cases h2 : v < 0 ∧ u ≤ 0
  · exact ⟨(0, 1), by simp [hexDirs], by simp only; omega⟩
  by_cases h3 : v = 0 ∧ 0 < u
  · exact ⟨(-1, 0), by simp [hexDirs], by simp only; omega⟩
  by_cases h4 : v = 0 ∧ u < 0
  · exact ⟨(1, 0), by simp [hexDirs], by simp only; omega⟩
  by_cases h5 : 0 < u ∧ v < 0
  · exact ⟨(-1, 1), by simp [hexDirs], by simp only; omega⟩
  by_cases h6 : u < 0 ∧ 0 < v
  · exact ⟨(1, -1), by simp [hexDirs], by simp only; omega⟩
  exfalso; omega

theorem rep_diff {n cx px : Nat} {a b : Int} (ha : Rep n cx px a) (hb : Rep n cx px b)
    (h1 : a - b < 2 * n) (h2 : b - a < 2 * n) :
    ∃ i : Int, (i = -1 ∨ i = 0 ∨ i = 1) ∧ a = b + i * n := by
  have h : a = b + -1 * n ∨ a = b + 0 * n ∨ a = b + 1 * n := by
    unfold Rep at ha hb; omega
  rcases h with h | h | h
  · exact ⟨-1, Or.inl rfl, h⟩
  · exact ⟨0, Or.inr (Or.inl rfl), h⟩
  · exact ⟨1, Or.inr (Or.inr rfl), h⟩

/-- On the boundary of the hexagon of radius `k` there is a unit step that leaves the
hexagon and all its copies shifted by the periods `n` and `m`, when the hexagon fits
within the periods. -/
theorem exists_dir_outward_wrapped {k u v n m : Int} (hk : InHex k u v)
    (hnk : ¬ InHex (k - 1) u v) (hn : 2 * k + 1 ≤ n) (hm : 2 * k + 1 ≤ m)
    (hn2 : 2 ≤ n) (hm2 : 2 ≤ m) :
    ∃ d, d ∈ hexDirs ∧ ∀ i j : Int, (i = -1 ∨ i = 0 ∨ i = 1) → (j = -1 ∨ j = 0 ∨ j = 1) →
      ¬ InHex k (u + d.1 + i * n) (v + d.2 + j * m) := by
  unfold InHex at hk hnk
  by_cases h0 : k = 0
  · refine ⟨(1, 0), by simp [hexDirs], ?_⟩
    rintro i j (rfl | rfl | rfl) (rfl | rfl | rfl) <;> unfold InHex <;> simp only <;> omega
  by_cases h1 : u = k ∧ v < 0
  · refine ⟨(1, 0), by simp [hexDirs], ?_⟩
    rintro i j (rfl | rfl | rfl) (rfl | rfl | rfl) <;> unfold InHex <;> simp only <;> omega
  by_cases h2 : v = -k ∧ 0 ≤ u ∧ u < k
  · refine ⟨(1, -1), by simp [hexDirs], ?_⟩
    rintro i j (rfl | rfl | rfl) (rfl | rfl | rfl) <;> unfold InHex <;> simp only <;> omega
  by_cases h3 : u + v = -k ∧ u < 0 ∧ v ≤ 0
  · refine ⟨(0, -1), by simp [hexDirs], ?_⟩
    rintro i j (rfl | rfl | rfl) (rfl | rfl | rfl) <;> unfold InHex <;> simp only <;> omega
  by_cases h4 : u = -k ∧ 0 < v
  · refine ⟨(-1, 0), by simp [hexDirs], ?_⟩
    rintro i j (rfl | rfl | rfl) (rfl | rfl | rfl) <;> unfold InHex <;> simp only <;> omega
  by_cases h5 : v = k ∧ -k < u ∧ u ≤ 0
  · refine ⟨(-1, 1), by simp [hexDirs], ?_⟩
    rintro i j (rfl | rfl | rfl) (rfl | rfl | rfl) <;> unfold InHex <;> simp only <;> omega
  by_cases h6 : u + v = k ∧ 0 < u ∧ 0 ≤ v
  · refine ⟨(0, 1), by simp [hexDirs], ?_⟩
    rintro i j (rfl | rfl | rfl) (rfl | rfl | rfl) <;> unfold InHex <;> simp only <;> omega
  exfalso; omega

/-! ### Walks against hexagons -/

/-- A point reached in `j` steps, with `j` below both dimensions, has an
unwrapped offset within the hexagon of radius `j`. -/
theorem near_of_mem {w h : Nat} {c : MapPoint} (hc : isValid w h c) (j : Nat) :
    ∀ p, p ∈ stepsFrom w h c j → j < w → j < h →
      ∃ u v : Int, Rep w c.x p.x u ∧ Rep h c.y p.y v ∧ InHex j u v := by
  induction j with
  | zero =>
    intro p hp _ _
    simp only [stepsFrom, List.mem_singleton] at hp
    subst hp
    exact ⟨0, 0, rep_refl _ _, rep_refl _ _, by unfold InHex; simp⟩
  | succ j ih =>
    intro p hp hjw hjh
    obtain ⟨m, hm, hpm⟩ := (mem_stepsFrom_succ w h c p j).1 hp
    obtain ⟨u, v, hu, hv, hin⟩ := ih m hm (by omega) (by omega)
    obtain ⟨d, hd, hrep⟩ := neighbour_rep hc (stepsFrom_valid hc j m hm) hpm
    have hstep := inHex_step hd hin
    have hb : InHex ((j : Int) + 1) (u + d.1) (v + d.2) := hstep
    unfold InHex at hb
    obtain ⟨hu', hv'⟩ := hrep u v hu hv (by omega) (by omega) (by omega) (by omega)
    exact ⟨u + d.1, v + d.2, hu', hv', by push_cast; exact hstep⟩

/-- A valid point with an unwrapped offset within the hexagon of radius `k`, with `k`
below both dimensions, is reached in at most `k` steps. -/
theorem mem_of_near {w h : Nat} {c : MapPoint} (hc : isValid w h c) (k : Nat) :
    ∀ (p : MapPoint) (u v : Int), isValid w h p → k < w → k < h →
      Rep w c.x p.x u → Rep h c.y p.y v → InHex k u v →
      ∃ j, j ≤ k ∧ p ∈ stepsFrom w h c j := by
  induction k with
  | zero =>
    intro p u v hp _ _ hu hv hin
    unfold InHex at hin
    have hu0 : u = 0 := by omega
    have hv0 : v = 0 := by omega
    subst hu0 hv0
    have hx := rep_zero hc.1 hp.1 hu
    have hy := rep_zero hc.2 hp.2 hv
    refine ⟨0, Nat.le_refl _, ?_⟩
    simp only [stepsFrom, List.mem_singleton]
    cases p with
    | mk px py =>
      cases c with
      | mk cx cy => simp only at hx hy; simp [hx, hy]
  | succ k ih =>
    intro p u v hp hkw hkh hu hv hin
    by_cases hk : InHex k u v
    · obtain ⟨j, hj, hmem⟩ := ih p u v hp (by omega) (by omega) hu hv hk
      exact ⟨j, by omega, hmem⟩
    · have hin' : InHex ((k : Int) + 1) u v := by push_cast at hin; exact hin
      obtain ⟨d, hd, hdin⟩ := exists_dir_inward hin' hk (by omega)
      have hb := hdin
      unfold InHex at hb
      obtain ⟨q, hq, hqu, hqv⟩ := exists_neighbour_rep hc hp hu hv hd
        (by omega) (by omega) (by omega) (by omega)
      have hqv' : isValid w h q :=
        GetNeighbours_valid (by unfold isValid at hc; omega) (by unfold isValid at hc; omega) p q hq
      obtain ⟨j, hj, hmem⟩ := ih q _ _ hqv' (by omega) (by omega) hqu hqv hdin
      exact ⟨j + 1, by omega,
        (mem_stepsFrom_succ w h c p j).2 ⟨q, hmem, GetNeighbours_symm hp hqv' hq⟩⟩

theorem inHex_mono {j k u v : Int} (hjk : j ≤ k) (h : InHex j u v) : InHex k u v := by
  unfold InHex at h ⊢; omega

/-- On a grid whose dimensions are both at least `2 * r + 1` and at least 2, a point at
distance exactly `r` from `c` has a neighbour that no walk of at most `r` steps from
`c` reaches. -/
theorem exists_neighbour_outside {w h : Nat} {c p : MapPoint} (hc : isValid w h c)
    (hp : isValid w h p) (r : Nat) (hw : 2 * r + 1 ≤ w) (hh : 2 * r + 1 ≤ h)
    (hw2 : 2 ≤ w) (hh2 : 2 ≤ h) (hd : CalcDistance w h c p = r) :
    ∃ n, n ∈ GetNeighbours w h p ∧ n ∉ GetPointsInRadius w h c r := by
  have hmem : p ∈ stepsFrom w h c r := hd ▸ CalcDistance_mem hc hp
  obtain ⟨u, v, hu, hv, hin⟩ := near_of_mem hc r p hmem (by omega) (by omega)
  have hnot : ¬ InHex ((r : Int) - 1) u v := by
    intro hin'
    rcases Nat.eq_zero_or_pos r with h0 | hpos
    · subst h0
      unfold InHex at hin'
      omega
    · have hcast : ((r - 1 : Nat) : Int) = (r : Int) - 1 := by omega
      rw [← hcast] at hin'
      obtain ⟨j, hj, hpj⟩ := mem_of_near hc (r - 1) p u v hp (by omega) (by omega) hu hv hin'
      have := CalcDistance_le_of_mem w h c p j hpj
      omega
  obtain ⟨d, hdir, hout⟩ := @exists_dir_outward_wrapped (r : Int) u v (w : Int) (h : Int)
    hin hnot (by omega) (by omega) (by omega) (by omega)
  have hb := inHex_step hdir hin
  unfold InHex at hb
  obtain ⟨q, hq, hqu, hqv⟩ := exists_neighbour_rep hc hp hu hv hdir
    (by omega) (by omega) (by omega) (by omega)
  refine ⟨q, hq, ?_⟩
  intro hqin
  obtain ⟨j, hj, hqj⟩ := (mem_GetPointsInRadius w h c q r).1 hqin
  obtain ⟨u', v', hu', hv', hin'⟩ := near_of_mem hc j q hqj (by omega) (by omega)
  have hinR : InHex r u' v' := inHex_mono (by omega) hin'
  have hb' := hinR
  unfold InHex at hb'
  obtain ⟨i, hi, e1⟩ := rep_diff hu' hqu (by omega) (by omega)
  obtain ⟨l, hl, e2⟩ := rep_diff hv' hqv (by omega) (by omega)
  rw [e1, e2] at hinR
  exact hout i l hi hl hinR

/-! ### Placement on a world without buildings -/

theorem keepsOwner_noBuildings (W : World) (p c : MapPoint) (hW : W.buildings = []) :
    keepsOwner W p c = false := by
  simp [keepsOwner, hW]

theorem assign_noBuildings (c : MapPoint) (player : Nat) (S : List MapPoint) (W : World)
    (hW : W.buildings = []) :
    (S.foldl (fun acc p =>
        if GetOwner acc p ≠ 0 ∧ GetOwner acc p ≠ player ∧ keepsOwner acc p c = true then acc
        else SetOwner acc p player) W).buildings = [] ∧
    (S.foldl (fun acc p =>
        if GetOwner acc p ≠ 0 ∧ GetOwner acc p ≠ player ∧ keepsOwner acc p c = true then acc
        else SetOwner acc p player) W).width = W.width ∧
    (S.foldl (fun acc p =>
        if GetOwner acc p ≠ 0 ∧ GetOwner acc p ≠ player ∧ keepsOwner acc p c = true then acc
        else SetOwner acc p player) W).height = W.height ∧
    ∀ q, GetOwner (S.foldl (fun acc p =>
        if GetOwner acc p ≠ 0 ∧ GetOwner acc p ≠ player ∧ keepsOwner acc p c = true then acc
        else SetOwner acc p player) W) q = if q ∈ S then player else GetOwner W q := by
  induction S generalizing W with
  | nil => simp [hW]
  | cons p S ih =>
    simp only [List.foldl_cons, keepsOwner_noBuildings W p c hW, Bool.false_eq_true, and_false,
      if_false]
    obtain ⟨h1, h2, h3, h4⟩ := ih (SetOwner W p player) (by simpa [SetOwner] using hW)
    refine ⟨h1, h2, h3, fun q => ?_⟩
    rw [h4 q]
    by_cases hqS : q ∈ S
    · simp [hqS]
    · by_cases hqp : q = p
      · simp [hqp, GetOwner, SetOwner]
      · simp [hqS, hqp, GetOwner, SetOwner]

theorem GetOwner_PlaceBuilding_empty (w h : Nat) (c : MapPoint) (radius player : Nat)
    (q : MapPoint) :
    GetOwner (PlaceBuilding (emptyWorld w h) c radius player) q =
      if q ∈ GetPointsInRadius w h c radius then player else 0 := by
  have := (assign_noBuildings c player (GetPointsInRadius w h c radius) (emptyWorld w h) rfl).2.2.2 q
  simpa [PlaceBuilding, GetOwner, emptyWorld] using this

theorem dims_PlaceBuilding_empty (w h : Nat) (c : MapPoint) (radius player : Nat) :
    (PlaceBuilding (emptyWorld w h) c radius player).width = w ∧
    (PlaceBuilding (emptyWorld w h) c radius player).height = h := by
  have := assign_noBuildings c player (GetPointsInRadius w h c radius) (emptyWorld w h) rfl
  exact ⟨by simpa [PlaceBuilding, emptyWorld] using this.2.1,
    by simpa [PlaceBuilding, emptyWorld] using this.2.2.1⟩

/-! ### The claims about the world, and the border around a lone headquarters -/


/-- C1: after a single headquarters of radius `R` owned by player `P` is placed at `c`
on an otherwise empty world, every point returned by `GetPointsInRadius c R` has owner
`P` (owner 1 for the first player). -/
theorem HQPlacement_owner (w h : Nat) (c : MapPoint) (R P : Nat) (p : MapPoint)
    (hp : p ∈ GetPointsInRadius w h c R) :
    GetOwner (PlaceBuilding (emptyWorld w h) c R P) p = P := by
  rw [GetOwner_PlaceBuilding_empty, if_pos hp]

/-- Witness for C1: the spec's scenario, a 20 x 20 world with a radius 4 headquarters
of player 1 at (0,0), at the wrapped point (18,0). -/
theorem HQPlacement_owner_witness :
    (⟨18, 0⟩ : MapPoint) ∈ GetPointsInRadius 20 20 ⟨0, 0⟩ 4 ∧
    GetOwner (PlaceBuilding (emptyWorld 20 20) ⟨0, 0⟩ 4 1) ⟨18, 0⟩ = 1 :=
  ⟨by decide, HQPlacement_owner 20 20 ⟨0, 0⟩ 4 1 ⟨18, 0⟩ (by decide)⟩

/-- C2: for every valid center `c` and radius `r`, `GetPointsInRadius c r` returns
exactly the grid points `p` with `CalcDistance c p ≤ r`, none of them twice, and for
radius 0 only `c`. -/
theorem GetPointsInRadius_exact (w h : Nat) (c : MapPoint) (r : Nat) (hc : isValid w h c) :
    (∀ p, p ∈ GetPointsInRadius w h c r ↔ isValid w h p ∧ CalcDistance w h c p ≤ r) ∧
    (GetPointsInRadius w h c r).Nodup ∧
    GetPointsInRadius w h c 0 = [c] :=
  ⟨fun p => mem_GetPointsInRadius_iff hc p r, GetPointsInRadius_nodup w h c r, rfl⟩

/-- Witness for C2: radius 2 around (0,0) on a 5 x 5 world. -/
theorem GetPointsInRadius_exact_witness :
    isValid 5 5 ⟨0, 0⟩ ∧
    ((∀ p, p ∈ GetPointsInRadius 5 5 ⟨0, 0⟩ 2 ↔
        isValid 5 5 p ∧ CalcDistance 5 5 ⟨0, 0⟩ p ≤ 2) ∧
      (GetPointsInRadius 5 5 ⟨0, 0⟩ 2).Nodup ∧
      GetPointsInRadius 5 5 ⟨0, 0⟩ 0 = [⟨0, 0⟩]) :=
  ⟨by decide, GetPointsInRadius_exact 5 5 ⟨0, 0⟩ 2 (by decide)⟩

/-- Neighbour-based border classification on a world the territory covers: on a 3 x 3
world with a radius 2 headquarters of player 1 at (0,0), the point (1,1) is returned by
the radius query and lies at distance exactly 2, and all its neighbours have owner 1. -/
theorem lone_hq_covers_small_world :
    (⟨1, 1⟩ : MapPoint) ∈ GetPointsInRadius 3 3 ⟨0, 0⟩ 2 ∧
    CalcDistance 3 3 ⟨1, 1⟩ ⟨0, 0⟩ = 2 ∧
    IsBorderNode (PlaceBuilding (emptyWorld 3 3) ⟨0, 0⟩ 2 1) ⟨1, 1⟩ 1 = false := by
  decide

/-- Neighbour-based border classification around a lone headquarters of radius `R` of
player `P ≥ 1` on an otherwise empty world: the points of `GetPointsInRadius c R` at
distance exactly `R` have a neighbour that is not owned by `P` when both world
dimensions are at least `2 * R + 1` and at least 2, and the other points are owned. -/
theorem lone_hq_radius_boundary (w h : Nat) (c : MapPoint) (R P : Nat) (hc : isValid w h c)
    (hP : 0 < P) (pt : MapPoint) (hpt : pt ∈ GetPointsInRadius w h c R) :
    (CalcDistance w h pt c = R → 2 * R + 1 ≤ w → 2 * R + 1 ≤ h → 2 ≤ w → 2 ≤ h →
      IsBorderNode (PlaceBuilding (emptyWorld w h) c R P) pt P = true) ∧
    (CalcDistance w h pt c ≠ R →
      IsPlayerTerritory (PlaceBuilding (emptyWorld w h) c R P) pt = true) := by
  have hv : isValid w h pt := ((mem_GetPointsInRadius_iff hc pt R).1 hpt).1
  have hown : GetOwner (PlaceBuilding (emptyWorld w h) c R P) pt = P := by
    rw [GetOwner_PlaceBuilding_empty, if_pos hpt]
  constructor
  · intro hd hw hh hw2 hh2
    rw [CalcDistance_comm hv hc] at hd
    obtain ⟨n, hn, hout⟩ := exists_neighbour_outside hc hv R hw hh hw2 hh2 hd
    have hn0 : GetOwner (PlaceBuilding (emptyWorld w h) c R P) n = 0 := by
      rw [GetOwner_PlaceBuilding_empty, if_neg hout]
    obtain ⟨hW, hH⟩ := dims_PlaceBuilding_empty w h c R P
    simp only [IsBorderNode, hown, hW, hH, decide_True, Bool.true_and, List.any_eq_true,
      decide_eq_true_eq]
    exact ⟨n, hn, by rw [hn0]; omega⟩
  · intro _
    simp only [IsPlayerTerritory, hown, decide_eq_true_eq]
    omega

/-- C4: `CalcDistance` is symmetric on the valid points of the wrap-around grid. -/
theorem CalcDistance_symmetric (w h : Nat) (p q : MapPoint) (hp : isValid w h p)
    (hq : isValid w h q) : CalcDistance w h p q = CalcDistance w h q p :=
  firstStepCount_congr (fun k => stepsFrom_symm hp hq k) (w + h) 0

/-- Witness for C4: the points (0,0) and (18,1) of a 20 x 20 world. -/
theorem CalcDistance_symmetric_witness :
    isValid 20 20 ⟨0, 0⟩ ∧ isValid 20 20 ⟨18, 1⟩ ∧
    CalcDistance 20 20 ⟨0, 0⟩ ⟨18, 1⟩ = CalcDistance 20 20 ⟨18, 1⟩ ⟨0, 0⟩ :=
  ⟨by decide, by decide, CalcDistance_symmetric 20 20 ⟨0, 0⟩ ⟨18, 1⟩ (by decide) (by decide)⟩

end Territory

/-! # Theorems about the SDL video driver -/

namespace VideoSDL

/-! ### Key translation -/

theorem translateKey_eq (k : KeyTypes) (sym mod unicode : Nat) :
    translateKey k sym mod unicode =
      { kt := if (keySwitch k sym unicode).1 = k.KT_INVALID then k.KT_CHAR
              else (keySwitch k sym unicode).1,
        c := if (keySwitch k sym unicode).1 = k.KT_INVALID then (keySwitch k sym unicode).2
             else 0,
        ctrl := decide (mod &&& KMOD_CTRL ≠ 0),
        shift := decide (mod &&& KMOD_SHIFT ≠ 0),
        alt := decide (mod &&& KMOD_ALT ≠ 0) } := by
  unfold translateKey
  by_cases h1 : mod &&& KMOD_CTRL ≠ 0 <;> by_cases h2 : mod &&& KMOD_SHIFT ≠ 0 <;>
    by_cases h3 : mod &&& KMOD_ALT ≠ 0 <;>
    by_cases h4 : (keySwitch k sym unicode).1 = k.KT_INVALID <;>
    simp [h1, h2, h3, h4]

theorem keySwitch_special (k : KeyTypes) (sym unicode : Nat) (e : Nat × Nat)
    (he : e ∈ specialKeys k) (hs : sym = e.1) : (keySwitch k sym unicode).1 = e.2 := by
  subst hs
  simp only [specialKeys, List.mem_cons, List.mem_singleton, List.not_mem_nil, or_false] at he
  rcases he with rfl | rfl | rfl | rfl | rfl | rfl | rfl | rfl | rfl | rfl | rfl | rfl | rfl | rfl <;>
    simp [keySwitch, SDLK_RETURN, SDLK_SPACE, SDLK_LEFT, SDLK_RIGHT, SDLK_UP, SDLK_DOWN,
      SDLK_BACKSPACE, SDLK_DELETE, SDLK_LSHIFT, SDLK_RSHIFT, SDLK_TAB, SDLK_HOME, SDLK_END,
      SDLK_ESCAPE]

theorem keySwitch_fkey (k : KeyTypes) (sym unicode : Nat) (h1 : SDLK_F1 ≤ sym)
    (h2 : sym ≤ SDLK_F12) : (keySwitch k sym unicode).1 = k.KT_F1 + (sym - SDLK_F1) := by
  have f1 : 282 ≤ sym := h1
  have f2 : sym ≤ 293 := h2
  have n1 : sym ≠ SDLK_RETURN := by show sym ≠ 13; omega
  have n2 : sym ≠ SDLK_SPACE := by show sym ≠ 32; omega
  have n3 : sym ≠ SDLK_LEFT := by show sym ≠ 276; omega
  have n4 : sym ≠ SDLK_RIGHT := by show sym ≠ 275; omega
  have n5 : sym ≠ SDLK_UP := by show sym ≠ 273; omega
  have n6 : sym ≠ SDLK_DOWN := by show sym ≠ 274; omega
  have n7 : sym ≠ SDLK_BACKSPACE := by show sym ≠ 8; omega
  have n8 : sym ≠ SDLK_DELETE := by show sym ≠ 127; omega
  have n9 : sym ≠ SDLK_LSHIFT := by show sym ≠ 304; omega
  have n10 : sym ≠ SDLK_RSHIFT := by show sym ≠ 303; omega
  have n11 : sym ≠ SDLK_TAB := by show sym ≠ 9; omega
  have n12 : sym ≠ SDLK_HOME := by show sym ≠ 278; omega
  have n13 : sym ≠ SDLK_END := by show sym ≠ 279; omega
  have n14 : sym ≠ SDLK_ESCAPE := by show sym ≠ 27; omega
  have n15 : sym ≠ SDLK_BACKQUOTE := by show sym ≠ 96; omega
  simp only [keySwitch, if_neg n1, if_neg n2, if_neg n3, if_neg n4, if_neg n5, if_neg n6,
    if_neg n7, if_neg n8, if_neg n9, if_neg n10, if_neg n11, if_neg n12, if_neg n13, if_neg n14,
    if_neg n15, if_pos (And.intro h1 h2)]
  show k.KT_F1 + sym - 282 = k.KT_F1 + (sym - 282)
  omega

theorem keySwitch_other (k : KeyTypes) (sym unicode : Nat)
    (hs : sym ∉ (specialKeys k).map Prod.fst) (hf : ¬ (SDLK_F1 ≤ sym ∧ sym ≤ SDLK_F12)) :
    keySwitch k sym unicode = (k.KT_INVALID, if sym = SDLK_BACKQUOTE then 94 else unicode) := by
  simp only [specialKeys, List.map_cons, List.map_nil, List.mem_cons, List.mem_singleton,
    List.not_mem_nil, or_false, not_or] at hs
  obtain ⟨a1, a2, a3, a4, a5, a6, a7, a8, a9, a10, a11, a12, a13, a14⟩ := hs
  simp [keySwitch, a1, a2, a3, a4, a5, a6, a7, a8, a9, a10, a11, a12, a13, a14, hf]
  split_ifs <;> rfl

/-! ### Screen creation -/

/-- C5: `CreateScreen` and `ResizeScreen` return true exactly when the driver is
initialized and `SDL_SetVideoMode` returns a non-null surface; on a driver that is not
initialized they return false, make no call of `SDL_SetVideoMode`, and leave
`screenWidth`, `screenHeight` and `isFullscreen_` (indeed the whole state) unchanged. -/
theorem screen_functions_result (env : Env) (st : State) (width height : Nat)
    (fullscreen : Bool) :
    ((CreateScreen env st width height fullscreen).1 = true ↔
      st.initialized = true ∧
      (env.setVideoMode width height 32
        (videoFlags (if env.win32 then false else fullscreen))).isSome = true) ∧
    ((ResizeScreen env st width height fullscreen).1 = true ↔
      st.initialized = true ∧
      (env.setVideoMode width height 32
        (videoFlags (if env.win32 then false else fullscreen))).isSome = true) ∧
    (st.initialized = false →
      (CreateScreen env st width height fullscreen).1 = false ∧
      (CreateScreen env st width height fullscreen).2.2.any Call.isSetVideoMode = false ∧
      (CreateScreen env st width height fullscreen).2.1.screenWidth = st.screenWidth ∧
      (CreateScreen env st width height fullscreen).2.1.screenHeight = st.screenHeight ∧
      (CreateScreen env st width height fullscreen).2.1.isFullscreen_ = st.isFullscreen_ ∧
      (CreateScreen env st width height fullscreen).2.1 = st ∧
      (ResizeScreen env st width height fullscreen).1 = false ∧
      (ResizeScreen env st width height fullscreen).2.2.any Call.isSetVideoMode = false ∧
      (ResizeScreen env st width height fullscreen).2.1.screenWidth = st.screenWidth ∧
      (ResizeScreen env st width height fullscreen).2.1.screenHeight = st.screenHeight ∧
      (ResizeScreen env st width height fullscreen).2.1.isFullscreen_ = st.isFullscreen_ ∧
      (ResizeScreen env st width height fullscreen).2.1 = st) := by
  refine ⟨?_, ?_, ?_⟩
  · unfold CreateScreen
    cases hi : st.initialized
    · simp
    · simp only [Bool.not_true, Bool.false_eq_true, if_false, true_and]
      cases hs : env.setVideoMode width height 32
        (videoFlags (if env.win32 then false else fullscreen)) <;> simp [hs]
  · unfold ResizeScreen
    cases hi : st.initialized
    · simp
    · simp only [Bool.not_true, Bool.false_eq_true, if_false, true_and]
      cases hs : env.setVideoMode width height 32
        (videoFlags (if env.win32 then false else fullscreen)) <;> simp [hs]
  · intro hi
    simp [CreateScreen, ResizeScreen, hi]

/-- Witness for C5: a driver that is not initialized, asked for an 800 x 600 window. -/
theorem screen_functions_result_witness :
    idleState.initialized = false ∧
    (CreateScreen sampleEnv idleState 800 600 true).1 = false ∧
    (ResizeScreen sampleEnv idleState 800 600 true).2.1 = idleState :=
  ⟨rfl, ((screen_functions_result sampleEnv idleState 800 600 true).2.2 rfl).1,
    ((screen_functions_result sampleEnv idleState 800 600 true).2.2 rfl).2.2.2.2.2.2.2.2.2.2.2⟩

/-! ### The message loop -/

theorem MessageLoop_cons (env : Env) (k : KeyTypes) (st : State) (ev : SDL_Event)
    (rest : List SDL_Event) (hev : ev ≠ SDL_Event.quit) :
    MessageLoop env k st (ev :: rest) =
      { MessageLoop env k (handleEvent env k st ev).1 rest with
        polled := ev :: (MessageLoop env k (handleEvent env k st ev).1 rest).polled,
        calls := (handleEvent env k st ev).2 ++
          (MessageLoop env k (handleEvent env k st ev).1 rest).calls } := by
  cases ev <;> first | exact absurd rfl hev | rfl

theorem MessageLoop_until_quit (env : Env) (k : KeyTypes) (pre rest : List SDL_Event) :
    ∀ st, SDL_Event.quit ∉ pre →
      MessageLoop env k st (pre ++ SDL_Event.quit :: rest) =
        { result := false, state := (handleAll env k st pre).1,
          polled := pre ++ [SDL_Event.quit], pending := rest,
          calls := (handleAll env k st pre).2 } := by
  induction pre with
  | nil =>
    intro st _
    simp [MessageLoop, handleAll]
  | cons ev pre ih =>
    intro st hq
    have hev : ev ≠ SDL_Event.quit := fun h => hq (h ▸ List.mem_cons_self _ _)
    have hpre : SDL_Event.quit ∉ pre := fun h => hq (List.mem_cons_of_mem _ h)
    rw [List.cons_append, MessageLoop_cons env k st ev _ hev, ih _ hpre]
    simp [handleAll]

theorem MessageLoop_drained (env : Env) (k : KeyTypes) (q : List SDL_Event) :
    ∀ st, SDL_Event.quit ∉ q →
      MessageLoop env k st q =
        { result := true, state := { (handleAll env k st q).1 with mouse_motion := false },
          polled := q, pending := [], calls := (handleAll env k st q).2 } := by
  induction q with
  | nil =>
    intro st _
    simp [MessageLoop, handleAll]
  | cons ev q ih =>
    intro st hq
    have hev : ev ≠ SDL_Event.quit := fun h => hq (h ▸ List.mem_cons_self _ _)
    have hq' : SDL_Event.quit ∉ q := fun h => hq (List.mem_cons_of_mem _ h)
    rw [MessageLoop_cons env k st ev _ hev, ih _ hq']
    simp [handleAll]

theorem exists_first_quit (q : List SDL_Event) (h : SDL_Event.quit ∈ q) :
    ∃ pre rest, q = pre ++ SDL_Event.quit :: rest ∧ SDL_Event.quit ∉ pre := by
  induction q with
  | nil => exact absurd h (List.not_mem_nil _)
  | cons ev q ih =>
    by_cases hev : ev = SDL_Event.quit
    · exact ⟨[], q, by simp [hev], List.not_mem_nil _⟩
    · have hq : SDL_Event.quit ∈ q := by
        rcases List.mem_cons.1 h with h | h
        · exact absurd h.symm hev
        · exact h
      obtain ⟨pre, rest, hsplit, hpre⟩ := ih hq
      refine ⟨ev :: pre, rest, by simp [hsplit], ?_⟩
      intro hmem
      rcases List.mem_cons.1 hmem with h | h
      · exact hev h.symm
      · exact hpre h

/-! ### What one event dispatches -/

theorem filterMap_cons_toList {α β : Type} (f : α → Option β) (a : α) (l : List α) :
    (a :: l).filterMap f = (f a).toList ++ l.filterMap f := by
  cases h : f a <;> simp [List.filterMap_cons, h]

theorem handleEvent_keyArg (env : Env) (k : KeyTypes) (st : State) (ev : SDL_Event) :
    (handleEvent env k st ev).2.filterMap Call.keyArg = (SDL_Event.keyDue k ev).toList := by
  cases ev with
  | quit => rfl
  | other => rfl
  | keyDown sym mod unicode => rfl
  | active state gain =>
    simp only [handleEvent, SDL_Event.keyDue]
    split_ifs <;> rfl
  | videoResize w h =>
    simp only [handleEvent, ResizeScreen, SDL_Event.keyDue]
    cases st.initialized
    · rfl
    · cases env.setVideoMode (toUShort w) (toUShort h) 32
        (videoFlags (if env.win32 then false else st.isFullscreen_)) <;> rfl
  | mouseButtonDown button x y =>
    simp only [handleEvent, SDL_Event.keyDue]
    split_ifs <;> rfl
  | mouseButtonUp button x y =>
    simp only [handleEvent, SDL_Event.keyDue]
    split_ifs <;> rfl
  | mouseMotion x y =>
    simp only [handleEvent, SDL_Event.keyDue]
    cases st.mouse_motion <;> rfl

theorem handleEvent_buttonArg (env : Env) (k : KeyTypes) (st : State) (ev : SDL_Event) :
    (handleEvent env k st ev).2.filterMap Call.buttonArg = (SDL_Event.buttonDue ev).toList := by
  cases ev with
  | quit => rfl
  | other => rfl
  | keyDown sym mod unicode => rfl
  | active state gain =>
    simp only [handleEvent, SDL_Event.buttonDue]
    split_ifs <;> rfl
  | videoResize w h =>
    simp only [handleEvent, ResizeScreen, SDL_Event.buttonDue]
    cases st.initialized
    · rfl
    · cases env.setVideoMode (toUShort w) (toUShort h) 32
        (videoFlags (if env.win32 then false else st.isFullscreen_)) <;> rfl
  | mouseButtonDown button x y =>
    simp only [handleEvent, SDL_Event.buttonDue, SDL_BUTTON_LEFT, SDL_BUTTON_RIGHT]
    split_ifs with h1 h2 <;> first | rfl | omega
  | mouseButtonUp button x y =>
    simp only [handleEvent, SDL_Event.buttonDue, SDL_BUTTON_LEFT, SDL_BUTTON_RIGHT,
      SDL_BUTTON_WHEELUP, SDL_BUTTON_WHEELDOWN]
    split_ifs <;> first | rfl | omega
  | mouseMotion x y =>
    simp only [handleEvent, SDL_Event.buttonDue]
    cases st.mouse_motion <;> rfl

theorem handleEvent_moveArg (env : Env) (k : KeyTypes) (st : State) (ev : SDL_Event) :
    (handleEvent env k st ev).2.filterMap Call.moveArg =
      (if st.mouse_motion then [] else (SDL_Event.moveDue ev).toList) ∧
    (handleEvent env k st ev).1.mouse_motion =
      (st.mouse_motion || (SDL_Event.moveDue ev).isSome) := by
  cases ev with
  | quit => simp [handleEvent, SDL_Event.moveDue]
  | other => simp [handleEvent, SDL_Event.moveDue]
  | keyDown sym mod unicode => simp [handleEvent, SDL_Event.moveDue, Call.moveArg]
  | active state gain =>
    simp only [handleEvent, SDL_Event.moveDue]
    split_ifs <;> simp [Call.moveArg]
  | videoResize w h =>
    simp only [handleEvent, ResizeScreen, SDL_Event.moveDue]
    cases hi : st.initialized
    · simp [Call.moveArg]
    · cases env.setVideoMode (toUShort w) (toUShort h) 32
        (videoFlags (if env.win32 then false else st.isFullscreen_)) <;> simp [Call.moveArg]
  | mouseButtonDown button x y =>
    simp only [handleEvent, SDL_Event.moveDue]
    split_ifs <;> simp [Call.moveArg]
  | mouseButtonUp button x y =>
    simp only [handleEvent, SDL_Event.moveDue]
    split_ifs <;> simp [Call.moveArg]
  | mouseMotion x y =>
    simp only [handleEvent, SDL_Event.moveDue]
    cases hm : st.mouse_motion <;> simp [Call.moveArg, hm]

theorem handleEvent_resizedArg (env : Env) (k : KeyTypes) (st : State) (ev : SDL_Event) :
    (handleEvent env k st ev).2.filterMap Call.resizedArg =
      (SDL_Event.resizedDue st.initialized (st.screenWidth, st.screenHeight) ev).toList ∧
    (handleEvent env k st ev).1.initialized = st.initialized ∧
    ((handleEvent env k st ev).1.screenWidth, (handleEvent env k st ev).1.screenHeight) =
      SDL_Event.sizeAfter st.initialized (st.screenWidth, st.screenHeight) ev := by
  cases ev with
  | quit => simp [handleEvent, SDL_Event.resizedDue, SDL_Event.sizeAfter]
  | other => simp [handleEvent, SDL_Event.resizedDue, SDL_Event.sizeAfter]
  | keyDown sym mod unicode =>
    simp [handleEvent, SDL_Event.resizedDue, SDL_Event.sizeAfter, Call.resizedArg]
  | active state gain =>
    simp only [handleEvent, SDL_Event.resizedDue, SDL_Event.sizeAfter]
    split_ifs <;> simp [Call.resizedArg]
  | videoResize w h =>
    simp only [handleEvent, ResizeScreen, SDL_Event.resizedDue, SDL_Event.sizeAfter]
    cases hi : st.initialized
    · simp [Call.resizedArg, hi]
    · cases env.setVideoMode (toUShort w) (toUShort h) 32
        (videoFlags (if env.win32 then false else st.isFullscreen_)) <;>
        simp [Call.resizedArg, hi]
  | mouseButtonDown button x y =>
    simp only [handleEvent, SDL_Event.resizedDue, SDL_Event.sizeAfter]
    split_ifs <;> simp [Call.resizedArg]
  | mouseButtonUp button x y =>
    simp only [handleEvent, SDL_Event.resizedDue, SDL_Event.sizeAfter]
    split_ifs <;> simp [Call.resizedArg]
  | mouseMotion x y =>
    simp only [handleEvent, SDL_Event.resizedDue, SDL_Event.sizeAfter]
    cases hm : st.mouse_motion <;> simp [Call.resizedArg]

theorem handleAll_cons (env : Env) (k : KeyTypes) (st : State) (ev : SDL_Event)
    (evs : List SDL_Event) :
    handleAll env k st (ev :: evs) =
      ((handleAll env k (handleEvent env k st ev).1 evs).1,
        (handleEvent env k st ev).2 ++ (handleAll env k (handleEvent env k st ev).1 evs).2) :=
  rfl

/-- The callbacks made while a list of events runs through the switch are the ones
the events are due. -/
theorem handleAll_dispatched (env : Env) (k : KeyTypes) (evs : List SDL_Event) :
    ∀ st, Dispatched k st evs (handleAll env k st evs).2 := by
  induction evs with
  | nil =>
    intro st
    simp [Dispatched, handleAll, resizedDueAll]
  | cons ev evs ih =>
    intro st
    obtain ⟨ihKey, ihButton, ihMove, ihResized⟩ := ih (handleEvent env k st ev).1
    obtain ⟨hMove, hFlag⟩ := handleEvent_moveArg env k st ev
    obtain ⟨hResized, hInit, hSize⟩ := handleEvent_resizedArg env k st ev
    rw [handleAll_cons]
    refine ⟨?_, ?_, ?_, ?_⟩
    · rw [List.filterMap_append, handleEvent_keyArg, ihKey, filterMap_cons_toList]
    · rw [List.filterMap_append, handleEvent_buttonArg, ihButton, filterMap_cons_toList]
    · simp only
      rw [List.filterMap_append, hMove, ihMove, hFlag, filterMap_cons_toList]
      cases st.mouse_motion
      · cases hm : SDL_Event.moveDue ev <;> simp
      · simp
    · simp only
      rw [List.filterMap_append, hResized, ihResized, hInit]
      simp only [resizedDueAll]
      rw [← hSize]

/-- C6 as stated fails: two mouse motions, a press of the middle button and an event
of a type without a case lie before the first `SDL_QUIT` and are all polled, yet only the
first motion reaches a callback. -/
theorem MessageLoop_undispatched :
    (MessageLoop sampleEnv rttrKeyTypes runningState
        [SDL_Event.mouseMotion 1 1, SDL_Event.mouseMotion 2 2, SDL_Event.mouseButtonDown 2 5 5,
          SDL_Event.other, SDL_Event.quit]).polled =
      [SDL_Event.mouseMotion 1 1, SDL_Event.mouseMotion 2 2, SDL_Event.mouseButtonDown 2 5 5,
        SDL_Event.other, SDL_Event.quit] ∧
    (MessageLoop sampleEnv rttrKeyTypes runningState
        [SDL_Event.mouseMotion 1 1, SDL_Event.mouseMotion 2 2, SDL_Event.mouseButtonDown 2 5 5,
          SDL_Event.other, SDL_Event.quit]).calls =
      [Call.Msg_MouseMove ⟨1, 1, false, false⟩] := by
  decide

/-- C6, amended: for every queue of pending events, `MessageLoop` returns false exactly
when the queue holds an `SDL_QUIT` event. Then the events before the first `SDL_QUIT`
and that `SDL_QUIT` are the events polled, the events after it stay in the queue, and
the callbacks made are the ones the events before it are due: every key press reaches
`Msg_KeyDown`, every press of the left or right button and every release of the left,
right or a wheel button its button callback, every resize and regained activation
`ScreenResized`, of the mouse motions only the first reaches `Msg_MouseMove` (none
while `mouse_motion` is still set), and no other event reaches a callback. Without an
`SDL_QUIT` the same holds of the whole queue, which is drained, and the result is
true. -/
theorem MessageLoop_quit (env : Env) (k : KeyTypes) (st : State) (q : List SDL_Event) :
    ((MessageLoop env k st q).result = false ↔ SDL_Event.quit ∈ q) ∧
    (∀ pre rest, q = pre ++ SDL_Event.quit :: rest → SDL_Event.quit ∉ pre →
      (MessageLoop env k st q).result = false ∧
      (MessageLoop env k st q).polled = pre ++ [SDL_Event.quit] ∧
      (MessageLoop env k st q).pending = rest ∧
      Dispatched k st pre (MessageLoop env k st q).calls ∧
      (MessageLoop env k st q).calls = (handleAll env k st pre).2 ∧
      (MessageLoop env k st q).state = (handleAll env k st pre).1) ∧
    (SDL_Event.quit ∉ q →
      (MessageLoop env k st q).result = true ∧
      (MessageLoop env k st q).polled = q ∧
      (MessageLoop env k st q).pending = [] ∧
      Dispatched k st q (MessageLoop env k st q).calls ∧
      (MessageLoop env k st q).calls = (handleAll env k st q).2 ∧
      (MessageLoop env k st q).state =
        { (handleAll env k st q).1 with mouse_motion := false }) := by
  refine ⟨?_, ?_, ?_⟩
  · constructor
    · intro hres
      by_contra hq
      rw [MessageLoop_drained env k q st hq] at hres
      exact Bool.noConfusion hres
    · intro hq
      obtain ⟨pre, rest, hsplit, hpre⟩ := exists_first_quit q hq
      rw [hsplit, MessageLoop_until_quit env k pre rest st hpre]
  · intro pre rest hsplit hpre
    rw [hsplit, MessageLoop_until_quit env k pre rest st hpre]
    exact ⟨rfl, rfl, rfl, handleAll_dispatched env k pre st, rfl, rfl⟩
  · intro hq
    rw [MessageLoop_drained env k q st hq]
    exact ⟨rfl, rfl, rfl, handleAll_dispatched env k q st, rfl, rfl⟩

/-- Witness for C6: a return key, two mouse motions, then `SDL_QUIT`, then a press of
the left button, which stays in the queue. -/
theorem MessageLoop_quit_witness :
    SDL_Event.quit ∉
      [SDL_Event.keyDown 13 0 13, SDL_Event.mouseMotion 1 2, SDL_Event.mouseMotion 3 4] ∧
    (MessageLoop sampleEnv rttrKeyTypes runningState
        [SDL_Event.keyDown 13 0 13, SDL_Event.mouseMotion 1 2, SDL_Event.mouseMotion 3 4,
          SDL_Event.quit, SDL_Event.mouseButtonDown 1 0 0]).pending =
      [SDL_Event.mouseButtonDown 1 0 0] ∧
    Dispatched rttrKeyTypes runningState
      [SDL_Event.keyDown 13 0 13, SDL_Event.mouseMotion 1 2, SDL_Event.mouseMotion 3 4]
      (MessageLoop sampleEnv rttrKeyTypes runningState
        [SDL_Event.keyDown 13 0 13, SDL_Event.mouseMotion 1 2, SDL_Event.mouseMotion 3 4,
          SDL_Event.quit, SDL_Event.mouseButtonDown 1 0 0]).calls ∧
    (MessageLoop sampleEnv rttrKeyTypes runningState
        [SDL_Event.keyDown 13 0 13, SDL_Event.mouseMotion 1 2, SDL_Event.mouseMotion 3 4,
          SDL_Event.quit, SDL_Event.mouseButtonDown 1 0 0]).calls =
      [Call.Msg_KeyDown ⟨2, 0, false, false, false⟩, Call.Msg_MouseMove ⟨1, 2, false, false⟩] :=
  ⟨by decide,
    ((MessageLoop_quit sampleEnv rttrKeyTypes runningState
      [SDL_Event.keyDown 13 0 13, SDL_Event.mouseMotion 1 2, SDL_Event.mouseMotion 3 4,
        SDL_Event.quit, SDL_Event.mouseButtonDown 1 0 0]).2.1
      [SDL_Event.keyDown 13 0 13, SDL_Event.mouseMotion 1 2, SDL_Event.mouseMotion 3 4]
      [SDL_Event.mouseButtonDown 1 0 0] rfl (by decide)).2.2.1,
    ((MessageLoop_quit sampleEnv rttrKeyTypes runningState
      [SDL_Event.keyDown 13 0 13, SDL_Event.mouseMotion 1 2, SDL_Event.mouseMotion 3 4,
        SDL_Event.quit, SDL_Event.mouseButtonDown 1 0 0]).2.1
      [SDL_Event.keyDown 13 0 13, SDL_Event.mouseMotion 1 2, SDL_Event.mouseMotion 3 4]
      [SDL_Event.mouseButtonDown 1 0 0] rfl (by decide)).2.2.2.1,
    by decide⟩

/-! ### Video modes -/

theorem ListVideoModes_added (modes : List (Nat × Nat)) : ∀ vms : List VideoMode,
    ∃ added, ListVideoModes vms modes = vms ++ added ∧ added.Nodup ∧
      (∀ m ∈ added, m ∉ vms ∧ ∃ r ∈ modes, m = { width := r.1, height := r.2 }) ∧
      (∀ r ∈ modes, ({ width := r.1, height := r.2 } : VideoMode) ∈ ListVideoModes vms modes) := by
  induction modes with
  | nil =>
    intro vms
    exact ⟨[], by simp [ListVideoModes], List.nodup_nil, by simp, by simp⟩
  | cons r modes ih =>
    intro vms
    by_cases hmem : ({ width := r.1, height := r.2 } : VideoMode) ∈ vms
    · obtain ⟨added, heq, hnd, hnew, hall⟩ := ih vms
      have hstep : ListVideoModes vms (r :: modes) = ListVideoModes vms modes := by
        simp [ListVideoModes, hmem]
      refine ⟨added, by rw [hstep, heq], hnd, ?_, ?_⟩
      · intro m hm
        obtain ⟨h1, r', hr', h2⟩ := hnew m hm
        exact ⟨h1, r', List.mem_cons_of_mem _ hr', h2⟩
      · intro r' hr'
        rw [hstep]
        rcases List.mem_cons.1 hr' with rfl | hr'
        · rw [heq]; exact List.mem_append_left _ hmem
        · exact hall r' hr'
    · obtain ⟨added, heq, hnd, hnew, hall⟩ := ih (vms ++ [{ width := r.1, height := r.2 }])
      have hstep : ListVideoModes vms (r :: modes) =
          ListVideoModes (vms ++ [{ width := r.1, height := r.2 }]) modes := by
        simp [ListVideoModes, hmem]
      refine ⟨{ width := r.1, height := r.2 } :: added, by rw [hstep, heq]; simp, ?_, ?_, ?_⟩
      · rw [List.nodup_cons]
        refine ⟨fun hin => ?_, hnd⟩
        exact (hnew _ hin).1 (by simp)
      · intro m hm
        rcases List.mem_cons.1 hm with rfl | hm
        · exact ⟨hmem, r, List.mem_cons_self _ _, rfl⟩
        · obtain ⟨h1, r', hr', h2⟩ := hnew m hm
          exact ⟨fun h => h1 (List.mem_append_left _ h), r', List.mem_cons_of_mem _ hr', h2⟩
      · intro r' hr'
        rw [hstep]
        rcases List.mem_cons.1 hr' with rfl | hr'
        · rw [heq]; simp
        · exact hall r' hr'

/-- C7: `ListVideoModes` keeps the initial vector as a prefix, appends only reported
modes that the vector did not contain (each once), and ends with every reported mode in
the vector; so a vector without duplicates stays without duplicates. -/
theorem ListVideoModes_spec (video_modes : List VideoMode) (modes : List (Nat × Nat)) :
    ∃ added, ListVideoModes video_modes modes = video_modes ++ added ∧ added.Nodup ∧
      (∀ m ∈ added, m ∉ video_modes ∧ ∃ r ∈ modes, m = { width := r.1, height := r.2 }) ∧
      (∀ r ∈ modes,
        ({ width := r.1, height := r.2 } : VideoMode) ∈ ListVideoModes video_modes modes) ∧
      (video_modes.Nodup → (ListVideoModes video_modes modes).Nodup) := by
  obtain ⟨added, heq, hnd, hnew, hall⟩ := ListVideoModes_added modes video_modes
  refine ⟨added, heq, hnd, hnew, hall, fun hvm => ?_⟩
  rw [heq, List.nodup_append]
  exact ⟨hvm, hnd, fun x hx hx' => (hnew x hx').1 hx⟩

/-- Witness for C7: the vector holds 800 x 600 and SDL reports 1024 x 768, 800 x 600
and 1024 x 768 again. -/
theorem ListVideoModes_spec_witness :
    ([⟨800, 600⟩] : List VideoMode).Nodup ∧
    (ListVideoModes [⟨800, 600⟩] [(1024, 768), (800, 600), (1024, 768)]).Nodup := by
  obtain ⟨_, _, _, _, _, h⟩ :=
    ListVideoModes_spec [⟨800, 600⟩] [(1024, 768), (800, 600), (1024, 768)]
  exact ⟨by decide, h (by decide)⟩

/-! ### Key events -/

/-- C8: for every `SDL_KEYDOWN` event the loop hands exactly one `KeyEvent` to
`Msg_KeyDown`, and its `kt` is never `KT_INVALID`. A mapped special key or one of
F1..F12 arrives with its key type and `c == 0`; every other key arrives as `KT_CHAR`
with `c` the unicode value of the event (94, the caret, for the backquote key). `ctrl`,
`shift` and `alt` are set exactly when the modifier mask has a bit of `KMOD_CTRL`,
`KMOD_SHIFT`, `KMOD_ALT`. -/
theorem keyDown_event (env : Env) (k : KeyTypes) (hk : k.invalidIsFresh) (st : State)
    (sym mod unicode : Nat) :
    handleEvent env k st (SDL_Event.keyDown sym mod unicode) =
      (st, [Call.Msg_KeyDown (translateKey k sym mod unicode)]) ∧
    (translateKey k sym mod unicode).kt ≠ k.KT_INVALID ∧
    (∀ e ∈ specialKeys k, sym = e.1 →
      (translateKey k sym mod unicode).kt = e.2 ∧ (translateKey k sym mod unicode).c = 0) ∧
    (SDLK_F1 ≤ sym ∧ sym ≤ SDLK_F12 →
      (translateKey k sym mod unicode).kt = k.KT_F1 + (sym - SDLK_F1) ∧
      (translateKey k sym mod unicode).c = 0) ∧
    (sym ∉ (specialKeys k).map Prod.fst → ¬ (SDLK_F1 ≤ sym ∧ sym ≤ SDLK_F12) →
      (translateKey k sym mod unicode).kt = k.KT_CHAR ∧
      (translateKey k sym mod unicode).c = if sym = SDLK_BACKQUOTE then 94 else unicode) ∧
    ((translateKey k sym mod unicode).ctrl = true ↔ mod &&& KMOD_CTRL ≠ 0) ∧
    ((translateKey k sym mod unicode).shift = true ↔ mod &&& KMOD_SHIFT ≠ 0) ∧
    ((translateKey k sym mod unicode).alt = true ↔ mod &&& KMOD_ALT ≠ 0) := by
  have hfresh := hk
  unfold KeyTypes.invalidIsFresh at hfresh
  obtain ⟨a1, a2, a3, a4, a5, a6, a7, a8, a9, a10, a11, a12, a13, a14, a15⟩ := hfresh
  have hspecial : ∀ e ∈ specialKeys k, e.2 ≠ k.KT_INVALID := by
    intro e he
    simp only [specialKeys, List.mem_cons, List.mem_singleton, List.not_mem_nil, or_false] at he
    rcases he with rfl | rfl | rfl | rfl | rfl | rfl | rfl | rfl | rfl | rfl | rfl | rfl | rfl | rfl <;>
      assumption
  have hF : SDLK_F1 ≤ sym ∧ sym ≤ SDLK_F12 → k.KT_F1 + (sym - SDLK_F1) ≠ k.KT_INVALID := by
    rintro ⟨h1, h2⟩
    have f1 : 282 ≤ sym := h1
    have f2 : sym ≤ 293 := h2
    show k.KT_F1 + (sym - 282) ≠ k.KT_INVALID
    omega
  refine ⟨rfl, ?_⟩
  rw [translateKey_eq]
  refine ⟨?_, ?_, ?_, ?_, by simp, by simp, by simp⟩
  · simp only
    split_ifs with h
    · exact a14
    · exact h
  · intro e he hs
    have hsw := keySwitch_special k sym unicode e he hs
    simp only [hsw, if_neg (hspecial e he), and_self]
  · intro hf
    have hsw := keySwitch_fkey k sym unicode hf.1 hf.2
    simp only [hsw, if_neg (hF hf), and_self]
  · intro hs hf
    rw [keySwitch_other k sym unicode hs hf]
    simp

/-- Witness for C8: F5 with left ctrl and left shift held, under the key types of the
game. -/
theorem keyDown_event_witness :
    rttrKeyTypes.invalidIsFresh ∧ SDLK_F1 ≤ 286 ∧ 286 ≤ SDLK_F12 ∧
    translateKey rttrKeyTypes 286 0x41 0 =
      { kt := 15, c := 0, ctrl := true, shift := true, alt := false } ∧
    (translateKey rttrKeyTypes 286 0x41 0).kt = rttrKeyTypes.KT_F1 + (286 - SDLK_F1) :=
  ⟨by decide, by decide, by decide, by decide,
    ((keyDown_event sampleEnv rttrKeyTypes (by decide) runningState 286 0x41 0).2.2.2.1
      ⟨by decide, by decide⟩).1⟩

end VideoSDL
